import Mathlib

/-!
 # Verification of the `peri` point-spread-function module

Shallow embedding of `src/peri/comp/psfs.py` and `src/peri/fft.py`.
Numpy float arrays are modelled as real-valued functions on natural-number
indices together with explicit shape triples; `np.fft.fftn` / `ifftn` are
modelled as the exact discrete Fourier transform over `ℂ` (numpy's
convention: forward unnormalized, inverse normalized by the array size).
Python floats are modelled as real numbers.

External collaborators not present under `src/` (`peri.util.Tile`,
`peri.util.memoize`, `peri.comp.Component.set_values`) are modelled from the
spec where definitions below say so.
-/

noncomputable section

namespace Peri

/-- A 3D array shape `(n0, n1, n2)`, numpy's `arr.shape` for a 3D array. -/
abbrev Shape3 := ℕ × ℕ × ℕ

/-- Real-valued 3D array: entries indexed by `(i, j, l)`; indices at or beyond
the shape bounds are junk values never inspected by the functions below. -/
abbrev Arr3R := ℕ → ℕ → ℕ → ℝ

/-- Complex-valued 3D array. -/
abbrev Arr3C := ℕ → ℕ → ℕ → ℂ

/-- `any(a < b)` on numpy shape arrays: some component of `a` is strictly
smaller than the corresponding component of `b`. -/
def anyLt (a b : Shape3) : Prop :=
  a.1 < b.1 ∨ a.2.1 < b.2.1 ∨ a.2.2 < b.2.2

instance (a b : Shape3) : Decidable (anyLt a b) := by
  unfold anyLt; infer_instance

/-- Modelled from the spec: `peri.util.Tile` (not under `src/`), §3 of the
spec: "a rectangular sub-volume descriptor {lower corner (3 integers),
shape (3 integers)}".  `Tile(shape)` in the source builds the tile with lower
corner 0 and the given shape. -/
structure Tile3 where
  l : ℤ × ℤ × ℤ
  shape : Shape3
deriving DecidableEq

/-- A field passed to `execute`: a real 3D array with its shape.  The source
also accepts complex (already transformed) fields, detected by
`np.iscomplex(field.ravel()[0])`; the claims under verification only concern
the real-input branch, which is the one embedded here. -/
structure Field3 where
  shape : Shape3
  data : Arr3R

/-- Total sum of all entries of a 3D array of shape `n`. -/
def sum3 (n : Shape3) (a : Arr3R) : ℝ :=
  ∑ i ∈ Finset.range n.1, ∑ j ∈ Finset.range n.2.1, ∑ l ∈ Finset.range n.2.2, a i j l

/-- `np.fft.fftn` on a 3D array of shape `n`: numpy's forward DFT,
`X[k] = ∑_m x[m] exp(-2πi k·m/N)`, unnormalized. -/
def dft3 (n : Shape3) (a : Arr3C) (k0 k1 k2 : ℕ) : ℂ :=
  ∑ i ∈ Finset.range n.1, ∑ j ∈ Finset.range n.2.1, ∑ l ∈ Finset.range n.2.2,
    a i j l * Complex.exp (-2 * (Real.pi : ℂ) * Complex.I *
      ((k0 : ℂ) * (i : ℂ) / (n.1 : ℂ) + (k1 : ℂ) * (j : ℂ) / (n.2.1 : ℂ) +
       (k2 : ℂ) * (l : ℂ) / (n.2.2 : ℂ)))

/-- `np.fft.ifftn` on a 3D array of shape `n`: numpy's inverse DFT,
normalized by the total size. -/
def idft3 (n : Shape3) (a : Arr3C) (m0 m1 m2 : ℕ) : ℂ :=
  (1 / ((n.1 : ℂ) * (n.2.1 : ℂ) * (n.2.2 : ℂ))) *
  ∑ i ∈ Finset.range n.1, ∑ j ∈ Finset.range n.2.1, ∑ l ∈ Finset.range n.2.2,
    a i j l * Complex.exp (2 * (Real.pi : ℂ) * Complex.I *
      ((m0 : ℂ) * (i : ℂ) / (n.1 : ℂ) + (m1 : ℂ) * (j : ℂ) / (n.2.1 : ℂ) +
       (m2 : ℂ) * (l : ℂ) / (n.2.2 : ℂ)))

/-- `np.fft.fft2` applied to one 2D slice of shape `n = (n1, n2)`. -/
def dft2 (n : ℕ × ℕ) (a : ℕ → ℕ → ℂ) (k1 k2 : ℕ) : ℂ :=
  ∑ j ∈ Finset.range n.1, ∑ l ∈ Finset.range n.2,
    a j l * Complex.exp (-2 * (Real.pi : ℂ) * Complex.I *
      ((k1 : ℂ) * (j : ℂ) / (n.1 : ℂ) + (k2 : ℂ) * (l : ℂ) / (n.2 : ℂ)))

/-- `np.fft.ifft2` applied to one 2D slice of shape `n = (n1, n2)`. -/
def idft2 (n : ℕ × ℕ) (a : ℕ → ℕ → ℂ) (m1 m2 : ℕ) : ℂ :=
  (1 / ((n.1 : ℂ) * (n.2 : ℂ))) *
  ∑ j ∈ Finset.range n.1, ∑ l ∈ Finset.range n.2,
    a j l * Complex.exp (2 * (Real.pi : ℂ) * Complex.I *
      ((m1 : ℂ) * (j : ℂ) / (n.1 : ℂ) + (m2 : ℂ) * (l : ℂ) / (n.2 : ℂ)))

/-- `np.fft.ifftshift` on a 3D array of shape `n`:
`out[i] = in[(i + n//2) mod n]` along each axis. -/
def ifftshift3 (n : Shape3) (a : Arr3R) : Arr3R := fun i j l =>
  a ((i + n.1 / 2) % n.1) ((j + n.2.1 / 2) % n.2.1) ((l + n.2.2 / 2) % n.2.2)

/-- `np.pad(a, pad, mode='constant', constant_values=0)` for a 3D array `a` of
shape `n`, with `lo` zeros before the data on each axis (the amount after is
determined by the shape at which the result is read). -/
def pad3 (lo n : Shape3) (a : Arr3R) : Arr3R := fun i j l =>
  if lo.1 ≤ i ∧ i < lo.1 + n.1 then
    if lo.2.1 ≤ j ∧ j < lo.2.1 + n.2.1 then
      if lo.2.2 ≤ l ∧ l < lo.2.2 + n.2.2 then
        a (i - lo.1) (j - lo.2.1) (l - lo.2.2)
      else 0
    else 0
  else 0

/-- Low-side padding amount per axis in `calculate_kpsf` / `FromArray._pad`:
`d = (shape - support) // 2` (numpy integer division, Python 2 `/=`). -/
def padLow (t s : ℕ) : ℕ := (t - s) / 2

/-- High-side padding amount per axis: `d + o` with `o = (shape - support) % 2`,
so the extra element of an odd difference goes on the high side. -/
def padHigh (t s : ℕ) : ℕ := (t - s) / 2 + (t - s) % 2

/-- `calculate_min_rpsf`'s rounding of padding sizes:
`min_support = ceil(p); min_support += min_support % 2`, i.e. round up to the
next even integer. -/
def evenCeil (p : ℝ) : ℕ := Nat.ceil p + Nat.ceil p % 2

lemma sum_ite_pull (P : Prop) [Decidable P] (s : Finset ℕ) (f : ℕ → ℝ) :
    ∑ x ∈ s, (if P then f x else 0) = if P then ∑ x ∈ s, f x else 0 := by
  by_cases h : P <;> simp [h]

/-- Summing a zero-padded 1D strip over the padded range recovers the sum of
the original strip. -/
lemma sum_pad1 (d n e : ℕ) (g : ℕ → ℝ) :
    ∑ i ∈ Finset.range (d + n + e), (if d ≤ i ∧ i < d + n then g (i - d) else 0) =
      ∑ i ∈ Finset.range n, g i := by
  have hsub : Finset.Ico d (d + n) ⊆ Finset.range (d + n + e) := fun x hx => by
    simp only [Finset.mem_Ico] at hx
    exact Finset.mem_range.mpr (by omega)
  have h0 : ∀ x ∈ Finset.range (d + n + e), x ∉ Finset.Ico d (d + n) →
      (if d ≤ x ∧ x < d + n then g (x - d) else 0) = 0 := by
    intro x _ hx
    rw [if_neg]
    simpa [Finset.mem_Ico] using hx
  rw [← Finset.sum_subset hsub h0]
  have h1 : ∀ x ∈ Finset.Ico d (d + n),
      (if d ≤ x ∧ x < d + n then g (x - d) else 0) = g (x - d) := by
    intro x hx
    simp only [Finset.mem_Ico] at hx
    exact if_pos hx
  rw [Finset.sum_congr rfl h1, Finset.sum_Ico_eq_sum_range]
  simp

/-- A sum over `range n` is invariant under the cyclic index shift
`i ↦ (i + c) % n`. -/
lemma sum_range_shift_mod (n c : ℕ) (hn : 0 < n) (g : ℕ → ℝ) :
    ∑ i ∈ Finset.range n, g ((i + c) % n) = ∑ i ∈ Finset.range n, g i := by
  haveI : NeZero n := ⟨hn.ne'⟩
  rw [← Fin.sum_univ_eq_sum_range (fun i => g ((i + c) % n)), ← Fin.sum_univ_eq_sum_range g]
  refine Fintype.sum_equiv (Equiv.addRight (⟨c % n, Nat.mod_lt c hn⟩ : Fin n)) _ _ fun x => ?_
  simp only [Equiv.coe_addRight]
  congr 1
  rw [Fin.val_add]
  show ((x : ℕ) + c) % n = ((x : ℕ) + c % n) % n
  conv_rhs => rw [Nat.add_mod, Nat.mod_mod_of_dvd c (dvd_refl n)]
  exact Nat.add_mod _ _ _

/-- Zero padding preserves the total sum of a 3D array. -/
lemma sum3_pad3 (d1 n1 e1 d2 n2 e2 d3 n3 e3 : ℕ) (a : Arr3R) :
    sum3 (d1 + n1 + e1, d2 + n2 + e2, d3 + n3 + e3)
        (pad3 (d1, d2, d3) (n1, n2, n3) a) = sum3 (n1, n2, n3) a := by
  simp only [sum3, pad3]
  have step1 : ∀ i : ℕ,
      ∑ j ∈ Finset.range (d2 + n2 + e2), ∑ l ∈ Finset.range (d3 + n3 + e3),
        (if d1 ≤ i ∧ i < d1 + n1 then
          if d2 ≤ j ∧ j < d2 + n2 then
            if d3 ≤ l ∧ l < d3 + n3 then a (i - d1) (j - d2) (l - d3) else 0
          else 0
        else 0) =
      (if d1 ≤ i ∧ i < d1 + n1 then
        ∑ j ∈ Finset.range (d2 + n2 + e2),
          (if d2 ≤ j ∧ j < d2 + n2 then
            ∑ l ∈ Finset.range (d3 + n3 + e3),
              (if d3 ≤ l ∧ l < d3 + n3 then a (i - d1) (j - d2) (l - d3) else 0)
          else 0)
      else 0) := by
    intro i
    by_cases hi : d1 ≤ i ∧ i < d1 + n1
    · simp only [if_pos hi]
      exact Finset.sum_congr rfl fun j _ => sum_ite_pull _ _ _
    · simp only [if_neg hi, Finset.sum_const_zero]
  rw [Finset.sum_congr rfl fun i _ => step1 i]
  rw [sum_pad1 d1 n1 e1 (fun x => ∑ j ∈ Finset.range (d2 + n2 + e2),
    (if d2 ≤ j ∧ j < d2 + n2 then
      ∑ l ∈ Finset.range (d3 + n3 + e3),
        (if d3 ≤ l ∧ l < d3 + n3 then a x (j - d2) (l - d3) else 0)
    else 0))]
  refine Finset.sum_congr rfl fun x _ => ?_
  rw [sum_pad1 d2 n2 e2 (fun y => ∑ l ∈ Finset.range (d3 + n3 + e3),
    (if d3 ≤ l ∧ l < d3 + n3 then a x y (l - d3) else 0))]
  exact Finset.sum_congr rfl fun y _ => sum_pad1 d3 n3 e3 (a x y)

/-- `ifftshift` (a cyclic shift along each axis) preserves the total sum. -/
lemma sum3_ifftshift3 (n : Shape3) (h1 : 0 < n.1) (h2 : 0 < n.2.1) (h3 : 0 < n.2.2)
    (a : Arr3R) : sum3 n (ifftshift3 n a) = sum3 n a := by
  simp only [sum3, ifftshift3]
  rw [sum_range_shift_mod n.1 (n.1 / 2) h1
    (fun x => ∑ j ∈ Finset.range n.2.1, ∑ l ∈ Finset.range n.2.2,
      a x ((j + n.2.1 / 2) % n.2.1) ((l + n.2.2 / 2) % n.2.2))]
  refine Finset.sum_congr rfl fun x _ => ?_
  rw [sum_range_shift_mod n.2.1 (n.2.1 / 2) h2
    (fun y => ∑ l ∈ Finset.range n.2.2, a x y ((l + n.2.2 / 2) % n.2.2))]
  exact Finset.sum_congr rfl fun y _ =>
    sum_range_shift_mod n.2.2 (n.2.2 / 2) h3 (a x y)

/-- The zero-frequency (DC) component of the forward DFT of a real array is
the total sum of its entries. -/
lemma dft3_zero_freq (n : Shape3) (a : Arr3R) :
    dft3 n (fun i j l => ((a i j l : ℝ) : ℂ)) 0 0 0 = ((sum3 n a : ℝ) : ℂ) := by
  unfold dft3 sum3
  push_cast
  simp

/-- A single nonnegative entry bounds the total 3D sum from below. -/
lemma sum3_ge_entry (n : Shape3) (a : Arr3R) (h : ∀ i j l, 0 ≤ a i j l)
    (i0 j0 l0 : ℕ) (hi : i0 < n.1) (hj : j0 < n.2.1) (hl : l0 < n.2.2) :
    a i0 j0 l0 ≤ sum3 n a := by
  unfold sum3
  have step1 : a i0 j0 l0 ≤ ∑ l ∈ Finset.range n.2.2, a i0 j0 l :=
    Finset.single_le_sum (fun l _ => h i0 j0 l) (Finset.mem_range.mpr hl)
  have step2 : ∑ l ∈ Finset.range n.2.2, a i0 j0 l ≤
      ∑ j ∈ Finset.range n.2.1, ∑ l ∈ Finset.range n.2.2, a i0 j l :=
    Finset.single_le_sum (f := fun j => ∑ l ∈ Finset.range n.2.2, a i0 j l)
      (fun j _ => Finset.sum_nonneg fun l _ => h i0 j l) (Finset.mem_range.mpr hj)
  have step3 : ∑ j ∈ Finset.range n.2.1, ∑ l ∈ Finset.range n.2.2, a i0 j l ≤
      ∑ i ∈ Finset.range n.1, ∑ j ∈ Finset.range n.2.1, ∑ l ∈ Finset.range n.2.2, a i j l :=
    Finset.single_le_sum
      (f := fun i => ∑ j ∈ Finset.range n.2.1, ∑ l ∈ Finset.range n.2.2, a i j l)
      (fun i _ => Finset.sum_nonneg fun j _ => Finset.sum_nonneg fun l _ => h i j l)
      (Finset.mem_range.mpr hi)
  exact step1.trans (step2.trans step3)

/-!
 ## Kernel construction (`PSF.calculate_kpsf`, shared with `FromArray._pad`)
-/

/-- `PSF.calculate_kpsf(shape)` (psfs.py lines 37-50), given the stored
minimum support `ms` and minimum real-space kernel `mr`: compute the per-axis
size difference `d = shape - min_support`, split it as `(d//2, d//2 + d%2)`
zeros per axis, pad, `ifftshift`, forward-transform, and divide by the real
part of the DC component plus `1e-15`.  `FromArray._pad` (lines 508-523)
performs this same computation with the user table's support and layer. -/
def calcKpsf (ms : Shape3) (mr : Arr3R) (ts : Shape3) : Arr3C :=
  let lo : Shape3 := (padLow ts.1 ms.1, padLow ts.2.1 ms.2.1, padLow ts.2.2 ms.2.2)
  let rpsf := ifftshift3 ts (pad3 lo ms mr)
  let kraw := fun k0 k1 k2 => dft3 ts (fun i j l => ((rpsf i j l : ℝ) : ℂ)) k0 k1 k2
  fun k0 k1 k2 => kraw k0 k1 k2 / ((((kraw 0 0 0).re + 1e-15 : ℝ) : ℂ))

/-- Modelled from the spec: `Tile.kvectors(norm=1.0/tile.shape, shift=True)`
(`peri.util`, not under `src/`), §4.3: the real-space kernel is "evaluated on
a centered coordinate grid spanning the minimum support"; with this
normalization the grid steps are integers, so along an axis of (even) size
`n` index `i` carries coordinate `i - n/2`. -/
def rvecsCoord (n i : ℕ) : ℝ := (i : ℝ) - ((n / 2 : ℕ) : ℝ)

/-- The per-variant hooks of the base PSF protocol: `get_padding_size`
(as a function of the parameter values) and `rpsf_func` (as a function of the
values and a real-space coordinate `(rz, ry, rx)`).  Python dynamic dispatch
to the concrete subclass is embedded as this explicit record. -/
structure PSFVariant where
  paddingSize : List ℝ → ℝ × ℝ × ℝ
  rpsfFunc : List ℝ → ℝ → ℝ → ℝ → ℝ

/-- `PSF.calculate_min_rpsf` (lines 52-57): round the padding size up to even
integers and evaluate the variant's real-space kernel on the centered grid of
that size.  Returns `(min_rpsf, min_support)`. -/
def calcMinRpsf (V : PSFVariant) (values : List ℝ) : Arr3R × Shape3 :=
  let p := V.paddingSize values
  let ms : Shape3 := (evenCeil p.1, evenCeil p.2.1, evenCeil p.2.2)
  (fun i j l => V.rpsfFunc values
    (rvecsCoord ms.1 i) (rvecsCoord ms.2.1 j) (rvecsCoord ms.2.2 l), ms)

/-- Errors of the PSF protocol, named as in the spec's taxonomy (§7): the
source raises `IndexError("PSF tile size is less than minimum support size")`
and `AttributeError("Field passed to PSF incorrect shape")`. -/
inductive PSFErr where
  | supportTooSmall
  | shapeMismatch
deriving DecidableEq

/-- Mutable state of a base 3D `PSF` instance: image shape, parameter names
and values, current tile, minimum support and minimum real-space kernel, the
`@memoize()` cache of `calculate_kpsf` keyed on the tile shape (modelled from
the spec, §2: "caches expensive per-tile derived quantities keyed on inputs"),
and the currently active frequency kernel. -/
structure PSFState where
  params : List String
  values : List ℝ
  shape : Shape3
  tile : Tile3
  minSupport : Shape3
  minRpsf : Arr3R
  kpsfCache : List (Shape3 × Arr3C)
  kpsf : Arr3C

/-- Lookup in a memoization cache (association list keyed on the argument). -/
def memoLookup (c : List (Shape3 × Arr3C)) (sh : Shape3) : Option Arr3C :=
  match c.find? (fun p => p.1 == sh) with
  | some p => some p.2
  | none => none

/-- The memoized `calculate_kpsf` call: return the cached kernel for this
shape if present, otherwise compute it and record it in the cache. -/
def calcKpsfMemo (s : PSFState) (sh : Shape3) : Arr3C × List (Shape3 × Arr3C) :=
  match memoLookup s.kpsfCache sh with
  | some k => (k, s.kpsfCache)
  | none => (calcKpsf s.minSupport s.minRpsf sh,
             (sh, calcKpsf s.minSupport s.minRpsf sh) :: s.kpsfCache)

/-- The success branch of `PSF.set_tile` (lines 63-66): replace the stored
tile only if the new tile's shape differs, then install the (memoized)
kernel for the stored tile's shape. -/
def setTileOk (s : PSFState) (t : Tile3) : PSFState :=
  let s1 := if t.shape ≠ s.tile.shape then { s with tile := t } else s
  let res := calcKpsfMemo s1 s1.tile.shape
  { s1 with kpsf := res.1, kpsfCache := res.2 }

/-- `PSF.set_tile(tile)` (lines 59-66): raise `IndexError` when any dimension
of the tile's shape is below the minimum support, otherwise succeed. -/
def setTileP (s : PSFState) (t : Tile3) : Except PSFErr PSFState :=
  if anyLt t.shape s.minSupport then .error .supportTooSmall
  else .ok (setTileOk s t)

/-- Modelled from the spec: `Component.set_values` (`peri/comp/__init__.py`,
not under `src/`), §4.2: "overwrites named parameter values in place (partial
update allowed — only named entries change)".  Every parameter whose name
appears in `names` takes the value paired with (the first occurrence of) its
name; all other parameters keep their previous values. -/
def setValues : List String → List ℝ → List String → List ℝ → List ℝ
  | p :: ps, v :: vs, names, newVals =>
      (((names.zip newVals).find? (fun nv => nv.1 == p)).elim v (fun nv => nv.2)) ::
        setValues ps vs names newVals
  | _, _, _, _ => []

/-- `PSF.update(params, values)` (lines 68-74): overwrite the named values,
recompute `min_rpsf` / `min_support` from the new values, and clear the
memoize cache. -/
def updateP (V : PSFVariant) (s : PSFState) (names : List String)
    (vals : List ℝ) : PSFState :=
  let v := setValues s.params s.values names vals
  let mr := calcMinRpsf V v
  { s with values := v, minRpsf := mr.1, minSupport := mr.2, kpsfCache := [] }

/-- `PSF.execute(field)` (lines 76-85): raise `AttributeError` when the
field's shape differs from the active tile's shape, otherwise forward
transform the (real) field, multiply by the cached frequency kernel, inverse
transform and take the real part.  The instance state is returned alongside
the result; the method performs no state mutation, and on the error path it
returns before any computation. -/
def executeP (s : PSFState) (f : Field3) : Except PSFErr Arr3R × PSFState :=
  if f.shape ≠ s.tile.shape then (.error .shapeMismatch, s)
  else
    let infield := fun i j l => dft3 f.shape (fun a b c => ((f.data a b c : ℝ) : ℂ)) i j l
    (.ok (fun i j l =>
      (idft3 f.shape (fun a b c => infield a b c * s.kpsf a b c) i j l).re), s)

/-!
 ## `IdentityPSF` (lines 112-131)
-/

/-- `IdentityPSF.execute(field)` (lines 120-121): `return field`, with no
shape check at all. -/
def idExecute (s : PSFState) (f : Field3) : Field3 := f

/-- `IdentityPSF.set_tile(tile)` (lines 129-131): store the tile when its
shape differs; no minimum-support check, never raises. -/
def idSetTile (s : PSFState) (t : Tile3) : PSFState :=
  if t.shape ≠ s.tile.shape then { s with tile := t } else s

/-- `IdentityPSF.update` (lines 126-127): only `set_values`. -/
def idUpdate (s : PSFState) (names : List String) (vals : List ℝ) : PSFState :=
  { s with values := setValues s.params s.values names vals }

/-!
 ## 3D Gaussian variants (lines 133-178)
-/

/-- The spec's padding-radius formula (§4.2): the radius at which a
unit-amplitude Gaussian of width `σ` falls below the accuracy threshold
`error`: `sqrt(-2 ln(error) σ²)`. -/
def radiusFormula (error σ : ℝ) : ℝ := Real.sqrt (-2 * Real.log error * σ ^ 2)

/-- `AnisotropicGaussian.get_padding_size` (lines 149-152): returns
`[pz, pr, pr]` where — as written in the source — `pr` is computed from
`values[0]` and `pz` from `values[1]`, although the parameter names are
`['psf-sig-z', 'psf-sig-rho']` in that order. -/
def anisoPaddingSize (error : ℝ) (values : List ℝ) : ℝ × ℝ × ℝ :=
  let pr := Real.sqrt (-2 * Real.log error * (values.getD 0 0) ^ 2)
  let pz := Real.sqrt (-2 * Real.log error * (values.getD 1 0) ^ 2)
  (pz, pr, pr)

/-- `AnisotropicGaussian.rpsf_func` (lines 141-147): Gaussian in `rho = values[0]/2`
and `z = values[1]/2` half-widths, hard-masked to the padding radii
(`self.pr`, `self.pz` as set by the preceding `get_padding_size` call). -/
def anisoRpsfFunc (error : ℝ) (values : List ℝ) (rz ry rx : ℝ) : ℝ :=
  let rhosq := rx ^ 2 + ry ^ 2
  let v0 := values.getD 0 0 / 2
  let v1 := values.getD 1 0 / 2
  let pr := Real.sqrt (-2 * Real.log error * (values.getD 0 0) ^ 2)
  let pz := Real.sqrt (-2 * Real.log error * (values.getD 1 0) ^ 2)
  Real.exp (-(rhosq / v0 ^ 2 + (rz / v1) ^ 2) / 2) *
    (if rhosq ≤ pr ^ 2 then 1 else 0) * (if |rz| ≤ pz then 1 else 0)

/-- The `AnisotropicGaussian` variant (error fixed at construction). -/
def anisoVariant (error : ℝ) : PSFVariant :=
  { paddingSize := anisoPaddingSize error, rpsfFunc := anisoRpsfFunc error }

/-- `AnisotropicGaussianXYZ.get_padding_size` (lines 174-178): returns
`[pz, py, px]` with `pz` from `values[0]`, `py` from `values[1]`, `px` from
`values[2]` (parameter names `['psf-sigz', 'psf-sigy', 'psf-sigx']`). -/
def xyzPaddingSize (error : ℝ) (values : List ℝ) : ℝ × ℝ × ℝ :=
  (Real.sqrt (-2 * Real.log error * (values.getD 0 0) ^ 2),
   Real.sqrt (-2 * Real.log error * (values.getD 1 0) ^ 2),
   Real.sqrt (-2 * Real.log error * (values.getD 2 0) ^ 2))

/-- `AnisotropicGaussianXYZ.rpsf_func` (lines 162-172). -/
def xyzRpsfFunc (error : ℝ) (values : List ℝ) (rz ry rx : ℝ) : ℝ :=
  let p0 := values.getD 0 0 / 2
  let p1 := values.getD 1 0 / 2
  let p2 := values.getD 2 0 / 2
  let pz := Real.sqrt (-2 * Real.log error * (values.getD 0 0) ^ 2)
  let py := Real.sqrt (-2 * Real.log error * (values.getD 1 0) ^ 2)
  let px := Real.sqrt (-2 * Real.log error * (values.getD 2 0) ^ 2)
  Real.exp (-((rz / p0) ^ 2 + (ry / p1) ^ 2 + (rx / p2) ^ 2) / 2) *
    ((if |rx| ≤ px then 1 else 0) * (if |ry| ≤ py then 1 else 0) *
     (if |rz| ≤ pz then 1 else 0))

/-- The `AnisotropicGaussianXYZ` variant. -/
def xyzVariant (error : ℝ) : PSFVariant :=
  { paddingSize := xyzPaddingSize error, rpsfFunc := xyzRpsfFunc error }

/-!
 ## 4D (depth-varying) variants: `PSF4D` / `Gaussian4D` (lines 184-335)
-/

/-- `np.polyval(coeffs[::-1], x)` as used by `_poly` (line 301): `coeffs` is
stored lowest degree first, so this is `c0 + c1 x + c2 x² + ...`. -/
def evalPoly (c : List ℝ) (x : ℝ) : ℝ := c.foldr (fun a acc => a + x * acc) 0

/-- `np.polyval(c, x)` with `c` highest degree first (used directly on the
fixed `bdpoly` table in `GaussianMomentExpansion._skew`, line 439). -/
def npPolyval (c : List ℝ) (x : ℝ) : ℝ := c.foldl (fun acc a => acc * x + a) 0

/-- `PSF4D._zpos(tile)` (lines 202-203): `arange(tile.l[0], tile.r[0])`, the
integer z positions covered by the tile. -/
def zposL (t : Tile3) : List ℤ := (List.range t.shape.1).map fun i => t.l.1 + i

/-- Modelled from the spec: the uncentered frequency grid
`Tile.kvectors(norm=1.0/tile.shape)` used by `PSF4D.rvecs` (lines 198-200)
(`peri.util`, not under `src/`; spec §6: "a frequency-vector generator
parameterized by normalization and centering").  Without centering, index `j`
on an axis of size `n` carries the `np.fft.fftfreq`-ordered coordinate: `j`
for `j < ceil(n/2)` and `j - n` beyond. -/
def fftfreqCoord (n j : ℕ) : ℝ :=
  if j < (n + 1) / 2 then (j : ℝ) else (j : ℝ) - (n : ℝ)

/-- State of a `Gaussian4D` instance (lines 278-335): parameter names/values,
per-axis polynomial orders, accuracy threshold, z normalization range, image
shape, current tile, the `@memoize()` cache of `_calc_tile_2d_psf` keyed on
the tile, and the current 2D real/frequency kernel stacks. -/
structure G4State where
  params : List String
  values : List ℝ
  order : ℕ × ℕ × ℕ
  error : ℝ
  zrange : ℝ
  shape : Shape3
  tile : Tile3
  psf2dCache : List (Tile3 × (Arr3R × Arr3C))
  rpsf2 : Arr3R
  kpsf2 : Arr3C

/-- `Gaussian4D._sigma_coeffs(d)` (lines 298-299): the values of the
parameters in `coeffs[d]`.  The constructor lays out the parameters as the z
coefficients, then y, then x (lines 286-294), so these are contiguous slices
of the value list. -/
def g4SigmaCoeffs (s : G4State) (d : ℕ) : List ℝ :=
  if d = 0 then s.values.take s.order.1
  else if d = 1 then (s.values.drop s.order.1).take s.order.2.1
  else ((s.values.drop s.order.1).drop s.order.2.1).take s.order.2.2

/-- `Gaussian4D._sigma(z, d)` (lines 304-306): the axis-`d` width polynomial
evaluated at the normalized depth `z / zrange`. -/
def g4Sigma (s : G4State) (z : ℝ) (d : ℕ) : ℝ :=
  evalPoly (g4SigmaCoeffs s d) (z / s.zrange)

/-- `Gaussian4D.get_padding_size(z)` (lines 308-317): per axis, the maximum
of the Gaussian radius formula at `sigma(z)` and the floor `2.1`. -/
def g4PaddingSize (s : G4State) (z : ℝ) : ℝ × ℝ × ℝ :=
  (max (Real.sqrt (-2 * Real.log s.error * (g4Sigma s z 0) ^ 2)) 2.1,
   max (Real.sqrt (-2 * Real.log s.error * (g4Sigma s z 1) ^ 2)) 2.1,
   max (Real.sqrt (-2 * Real.log s.error * (g4Sigma s z 2) ^ 2)) 2.1)

/-- The unnormalized axial weights of `Gaussian4D.rpsf_z(z, zp)` (lines
319-323): a Gaussian in `z - zp` hard-masked to the axial padding radius. -/
def g4RpsfZRaw (s : G4State) (zs : List ℝ) (zp : ℝ) : List ℝ :=
  let σ := g4Sigma s zp 0
  let size := g4PaddingSize s zp
  zs.map fun z =>
    Real.exp (-(z - zp) ^ 2 / (2 * σ ^ 2)) * (if |z - zp| ≤ size.1 then 1 else 0)

/-- `Gaussian4D.rpsf_z(z, zp)` (lines 319-324): the axial weights normalized
by their sum (`return out / out.sum()`). -/
def g4RpsfZ (s : G4State) (zs : List ℝ) (zp : ℝ) : List ℝ :=
  let out := g4RpsfZRaw s zs zp
  out.map fun x => x / out.sum

/-- `Gaussian4D.rpsf_xy(vecs, zp)` (lines 326-335): transverse Gaussian at
depth `zp`, hard-masked to the transverse padding radii. -/
def g4RpsfXY (s : G4State) (rx ry : ℝ) (zp : ℝ) : ℝ :=
  let size := g4PaddingSize s zp
  let sx := g4Sigma s zp 2
  let sy := g4Sigma s zp 1
  (Real.exp (-(rx / sx) ^ 2 / 2 - (ry / sy) ^ 2 / 2)) *
    (if |rx| ≤ size.2.2 then 1 else 0) * (if |ry| ≤ size.2.1 then 1 else 0)

/-- `PSF4D._calc_tile_2d_psf(tile)` (lines 205-224) instantiated for
`Gaussian4D`: per z layer, evaluate `rpsf_xy` on the (uncentered) frequency
grid, `fft2` each layer, then overwrite each layer's DC component with `1.0`
("need to normalize each x-y slice individually"). -/
def calc2dPsf (s : G4State) (t : Tile3) : Arr3R × Arr3C :=
  let zs := zposL t
  let rpsf : Arr3R := fun i j l =>
    g4RpsfXY s (fftfreqCoord t.shape.2.2 l) (fftfreqCoord t.shape.2.1 j)
      ((zs.getD i 0 : ℤ) : ℝ)
  let kraw : Arr3C := fun i k1 k2 => dft2 t.shape.2 (fun j l => ((rpsf i j l : ℝ) : ℂ)) k1 k2
  (rpsf, fun i k1 k2 => if k1 = 0 ∧ k2 = 0 then 1 else kraw i k1 k2)

/-- Lookup in the `_calc_tile_2d_psf` memoization cache (keyed on the tile). -/
def memoLookup4 (c : List (Tile3 × (Arr3R × Arr3C))) (t : Tile3) :
    Option (Arr3R × Arr3C) :=
  match c.find? (fun p => p.1 == t) with
  | some p => some p.2
  | none => none

/-- `PSF4D.set_tile(tile)` (lines 226-230): replace the tile when the shape
differs, then install the (memoized) 2D kernel stack for the stored tile.
There is no minimum-support check and no failure path. -/
def setTile4 (s : G4State) (t : Tile3) : G4State :=
  let s1 := if t.shape ≠ s.tile.shape then { s with tile := t } else s
  match memoLookup4 s1.psf2dCache s1.tile with
  | some pr => { s1 with rpsf2 := pr.1, kpsf2 := pr.2 }
  | none =>
    let pr := calc2dPsf s1 s1.tile
    { s1 with rpsf2 := pr.1, kpsf2 := pr.2,
              psf2dCache := (s1.tile, pr) :: s1.psf2dCache }

/-- `PSF4D.update(params, values)` (lines 232-239): only `set_values`
followed by `_memoize_clear()`; no minimum support is stored or recomputed
("let's start with nothing"). -/
def update4 (s : G4State) (names : List String) (vals : List ℝ) : G4State :=
  { s with values := setValues s.params s.values names vals, psf2dCache := [] }

/-- `PSF4D.execute(field)` (lines 241-262) instantiated for `Gaussian4D`:
shape check, per-layer 2D convolution with the cached 2D kernels, then the
explicit axial sum: each output layer gathers the input layers within the
axial padding radius of its z position, weighted by the normalized axial
kernel.  The state is returned alongside; the error path returns before any
computation. -/
def execute4 (s : G4State) (f : Field3) : Except PSFErr Arr3R × G4State :=
  if f.shape ≠ s.tile.shape then (.error .shapeMismatch, s)
  else
    let infield := fun i k1 k2 =>
      dft2 f.shape.2 (fun j l => ((f.data i j l : ℝ) : ℂ)) k1 k2
    let cov2d : Arr3R := fun i j l =>
      (idft2 f.shape.2 (fun k1 k2 => infield i k1 k2 * s.kpsf2 i k1 k2) j l).re
    let zr : List ℝ := (zposL s.tile).map fun z => ((z : ℤ) : ℝ)
    let out : Arr3R := fun i j l =>
      let zi := zr.getD i 0
      let size := g4PaddingSize s zi
      let ms := (List.range zr.length).filter fun m =>
        decide (zi - size.1 ≤ zr.getD m 0) && decide (zr.getD m 0 ≤ zi + size.1)
      let g := g4RpsfZ s (ms.map fun m => zr.getD m 0) zi
      ((ms.zip g).map fun mw => cov2d mw.1 j l * mw.2).sum
    (.ok out, s)

/-!
 ## `GaussianMomentExpansion` (lines 364-482): the axial weighting
-/

/-- The fixed empirical polynomial (`bdpoly`, lines 435-438) bounding the
skew by the current kurtosis value; highest degree first as `np.polyval`
expects. -/
def bdpoly : List ℝ :=
  [-11424.68, 3093.9485, -202.83568, -21.047846, 3.79808487, 0.0119679781]

/-- State of a `GaussianMomentExpansion` instance restricted to the data its
axial kernel uses: the per-axis sigma, skew and kurtosis coefficient lists
(`poly_coeffs` / `moment_coeffs`, read through `get_values`), the threshold
and z range. -/
structure GMEState where
  sigmaCoeffs : ℕ → List ℝ
  skewCoeffs : ℕ → List ℝ
  kurtCoeffs : ℕ → List ℝ
  error : ℝ
  zrange : ℝ

/-- `GaussianMomentExpansion._sigma(z, d)` (lines 414-416). -/
def gmeSigma (s : GMEState) (z : ℝ) (d : ℕ) : ℝ :=
  evalPoly (s.sigmaCoeffs d) (z / s.zrange)

/-- `GaussianMomentExpansion._skew(x, z, d)` (lines 430-445): the skew
amplitude is clamped into `(-top, top)` with `top` the empirical polynomial
of the kurtosis value, then applied to the odd profile `3x - x³`. -/
def gmeSkew (s : GMEState) (x z : ℝ) (d : ℕ) : ℝ :=
  let kval := (Real.tanh (evalPoly (s.kurtCoeffs d) z) + 1) / 12
  let top := npPolyval bdpoly kval
  let skew := evalPoly (s.skewCoeffs d) z
  let skewval := top * (Real.tanh skew + 1) - top
  skewval * (3 * x - x ^ 3)

/-- `GaussianMomentExpansion._kurtosis(x, z, d)` (lines 447-451). -/
def gmeKurt (s : GMEState) (x z : ℝ) (d : ℕ) : ℝ :=
  (Real.tanh (evalPoly (s.kurtCoeffs d) z) + 1) / 12 * (3 - 6 * x ^ 2 + x ^ 4)

/-- `GaussianMomentExpansion._moment(x, z, d)` (lines 418-420):
`1 + skew + kurtosis`. -/
def gmeMoment (s : GMEState) (x z : ℝ) (d : ℕ) : ℝ :=
  1 + gmeSkew s x z d + gmeKurt s x z d

/-- `GaussianMomentExpansion.get_padding_size(z)` (lines 453-462): same
formula-with-floor as `Gaussian4D`. -/
def gmePaddingSize (s : GMEState) (z : ℝ) : ℝ × ℝ × ℝ :=
  (max (Real.sqrt (-2 * Real.log s.error * (gmeSigma s z 0) ^ 2)) 2.1,
   max (Real.sqrt (-2 * Real.log s.error * (gmeSigma s z 1) ^ 2)) 2.1,
   max (Real.sqrt (-2 * Real.log s.error * (gmeSigma s z 2) ^ 2)) 2.1)

/-- The unnormalized axial weights of `GaussianMomentExpansion.rpsf_z`
(lines 464-469): the Gaussian multiplied by the moment prefactor
`_moment((z-zp)/s, zp, d=1)`, hard-masked to the axial padding radius. -/
def gmeRpsfZRaw (s : GMEState) (zs : List ℝ) (zp : ℝ) : List ℝ :=
  let σ := gmeSigma s zp 0
  let size := gmePaddingSize s zp
  zs.map fun z =>
    gmeMoment s ((z - zp) / σ) zp 1 * Real.exp (-(z - zp) ^ 2 / (2 * σ ^ 2)) *
      (if |z - zp| ≤ size.1 then 1 else 0)

/-- `GaussianMomentExpansion.rpsf_z(z, zp)` (lines 464-470): normalized by
the sum of the unnormalized weights. -/
def gmeRpsfZ (s : GMEState) (zs : List ℝ) (zp : ℝ) : List ℝ :=
  let out := gmeRpsfZRaw s zs zp
  out.map fun x => x / out.sum

/-- `GaussianMomentExpansion.rpsf_xy(vecs, zp)` (lines 472-482): the moment
prefactor at the transverse radius `rho` times the Gaussian, hard-masked to
the transverse padding radii. -/
def gmeRpsfXY (s : GMEState) (rx ry : ℝ) (zp : ℝ) : ℝ :=
  let size := gmePaddingSize s zp
  let sx := gmeSigma s zp 2
  let sy := gmeSigma s zp 1
  let rho := Real.sqrt ((rx / sx) ^ 2 + (ry / sy) ^ 2)
  (gmeMoment s rho zp 0 * Real.exp (-rho ^ 2 / 2)) *
    ((if |rx| ≤ size.2.2 then 1 else 0) * (if |ry| ≤ size.2.1 then 1 else 0))

/-- `PSF4D._calc_tile_2d_psf(tile)` (lines 205-224) instantiated for
`GaussianMomentExpansion`: identical construction to the `Gaussian4D`
instantiation (the method lives on the shared `PSF4D` base), with each
layer's DC component overwritten with `1.0`. -/
def gmeCalc2dPsf (s : GMEState) (t : Tile3) : Arr3R × Arr3C :=
  let zs := zposL t
  let rpsf : Arr3R := fun i j l =>
    gmeRpsfXY s (fftfreqCoord t.shape.2.2 l) (fftfreqCoord t.shape.2.1 j)
      ((zs.getD i 0 : ℤ) : ℝ)
  let kraw : Arr3C := fun i k1 k2 => dft2 t.shape.2 (fun j l => ((rpsf i j l : ℝ) : ℂ)) k1 k2
  (rpsf, fun i k1 k2 => if k1 = 0 ∧ k2 = 0 then 1 else kraw i k1 k2)

/-!
 ## `FromArray` (lines 487-551)
-/

/-- State of a `FromArray` instance: the kernel table (one 3D layer per
image z position, `params.reshape(param_shape)[z]`), the number of table
layers and the per-layer support `array.shape[1:]`, the image shape and the
current tile. -/
structure FAState where
  table : ℕ → Arr3R
  nz : ℕ
  support : Shape3
  shape : Shape3
  tile : Tile3

/-- `FromArray.set_tile(tile)` (lines 504-506): replace the tile when the
shape differs.  No minimum-support check and no failure path. -/
def faSetTile (s : FAState) (t : Tile3) : FAState :=
  if t.shape ≠ s.tile.shape then { s with tile := t } else s

/-- `FromArray.get_padding_size` (lines 549-550): the stored support. -/
def faGetPaddingSize (s : FAState) : Shape3 := s.support

/-- `FromArray._pad(field)` (lines 508-523): raise `IndexError` when the tile
is smaller than the support in any dimension; otherwise pad / shift /
transform / DC-normalize the given table layer — the same computation as
`calculate_kpsf` (the source duplicates its body). -/
def faPad (s : FAState) (field : Arr3R) : Except PSFErr Arr3C :=
  if anyLt s.tile.shape s.support then .error .supportTooSmall
  else .ok (calcKpsf s.support field s.tile.shape)

/-- Fetch a table layer at a (possibly negative) z index, with numpy's
negative-index wrap-around; out-of-range nonnegative indices are junk (the
source would raise `IndexError` there, which no claim exercises). -/
def faTableAt (s : FAState) (z : ℤ) : Arr3R :=
  if z < 0 then s.table ((s.nz : ℤ) + z).toNat else s.table z.toNat

/-- `FromArray.update(params)` (lines 525-526): `pass` — a no-op that cannot
fail. -/
def faUpdate (s : FAState) (ps : List ℝ) : FAState := s

/-- `FromArray.execute(field)` (lines 528-544): shape check, then for each
output layer pad-and-normalize the table layer at the tile's z position and
convolve; `_pad`'s support check fails identically for every layer, so it is
hoisted in front of the loop here.  The state is returned alongside; no
mutation occurs. -/
def faExecute (s : FAState) (f : Field3) : Except PSFErr Arr3R × FAState :=
  if f.shape ≠ s.tile.shape then (.error .shapeMismatch, s)
  else if anyLt s.tile.shape s.support then (.error .supportTooSmall, s)
  else
    let infield := fun i j l => dft3 f.shape (fun a b c => ((f.data a b c : ℝ) : ℂ)) i j l
    (.ok (fun i j l =>
      let kpsf := calcKpsf s.support (faTableAt s (s.tile.l.1 + i)) s.tile.shape
      (idft3 f.shape (fun a b c => infield a b c * kpsf a b c) i j l).re), s)

/-!
 ## The FFT backend module (`src/peri/fft.py`)
-/

/-- The two interchangeable FFT backends of `peri/fft.py`: `np.fft`
(reference) and `pyfftw.interfaces.numpy_fft` (optimized). -/
inductive FFTBackend where
  | numpy
  | fftw
deriving DecidableEq

/-- The module-level backend selection (fft.py lines 76-111): the optimized
backend when the `pyfftw` import succeeded, otherwise the reference
backend. -/
def fftBackendOf (hasfftw : Bool) : FFTBackend :=
  if hasfftw then .fftw else .numpy

/-- `fftnorm` (fft.py lines 104-114): with the optimized backend the result
is multiplied elementwise by the array's total size (`arr * arr.size`); with
the reference backend the argument is returned unchanged.  Arrays are
flattened to value lists here, so `arr.size` is the list length. -/
def fftnorm (hasfftw : Bool) (arr : List ℝ) : List ℝ :=
  if hasfftw then arr.map (fun x => x * (arr.length : ℝ)) else arr

/-!
 ## Concrete sample states used by witnesses and counterexamples
-/

/-- A sample parameter name. -/
def pnameA : String := "psf-a"

/-- A second sample parameter name, distinct from `pnameA`. -/
def pnameB : String := "psf-b"

/-- A third sample parameter name. -/
def pnameC : String := "psf-c"

/-- A sample base-PSF state: one parameter, minimum support `(2,2,2)`,
current tile the full `(4,4,4)` image. -/
def samplePSF : PSFState :=
  { params := [pnameA], values := [1], shape := (4, 4, 4),
    tile := { l := (0, 0, 0), shape := (4, 4, 4) },
    minSupport := (2, 2, 2), minRpsf := fun _ _ _ => 1,
    kpsfCache := [], kpsf := fun _ _ _ => 0 }

/-- A sample `Gaussian4D` state: constant widths `(2, 0.5, 1)`, threshold
`1/255`, `zrange = 128`, current tile the full `(2,4,4)` image. -/
def sampleG4 : G4State :=
  { params := [pnameA, pnameB, pnameC], values := [2, 0.5, 1], order := (1, 1, 1),
    error := 1 / 255, zrange := 128, shape := (2, 4, 4),
    tile := { l := (0, 0, 0), shape := (2, 4, 4) },
    psf2dCache := [], rpsf2 := fun _ _ _ => 0, kpsf2 := fun _ _ _ => 0 }

/-- A sample `GaussianMomentExpansion` state: constant unit widths, zero skew
and kurtosis coefficients. -/
def sampleGME : GMEState :=
  { sigmaCoeffs := fun _ => [1], skewCoeffs := fun _ => [0],
    kurtCoeffs := fun _ => [0], error := 1 / 255, zrange := 128 }

/-- A sample `FromArray` state: 4 table layers of support `(4,4,4)` holding
the constant 1, image and tile `(4,4,4)`. -/
def sampleFA : FAState :=
  { table := fun _ => fun _ _ _ => 1, nz := 4, support := (4, 4, 4),
    shape := (4, 4, 4), tile := { l := (0, 0, 0), shape := (4, 4, 4) } }

/-- A sample `FromArray` state whose support `(2,2,2)` matches its tile, with
an all-zero kernel table. -/
def sampleFA0 : FAState :=
  { table := fun _ => fun _ _ _ => 0, nz := 2, support := (2, 2, 2),
    shape := (2, 2, 2), tile := { l := (0, 0, 0), shape := (2, 2, 2) } }

/-!
 ## Claims
-/

/-- A sample tile smaller than `sampleFA`'s support. -/
def sampleTileSmall : Tile3 := { l := (0, 0, 0), shape := (2, 2, 2) }

/-- A sample `(4,4,4)` tile with a nonzero lower corner. -/
def sampleTileShift : Tile3 := { l := (7, 7, 7), shape := (4, 4, 4) }

/-- A sample `(2,4,4)` tile with a nonzero lower corner (same shape as
`sampleG4`'s tile, different origin). -/
def sampleTileShift4 : Tile3 := { l := (5, 0, 0), shape := (2, 4, 4) }

/-- A sample field whose shape `(2,2,2)` matches none of the sample tiles. -/
def sampleField : Field3 := { shape := (2, 2, 2), data := fun _ _ _ => 0 }

/-- A sample field of shape `(4,4,4)`. -/
def sampleField4 : Field3 := { shape := (4, 4, 4), data := fun _ _ _ => 1 }

/-- `true` exactly on the success constructor of `Except`. -/
def exceptOk {α : Type} (e : Except PSFErr α) : Bool :=
  match e with
  | .ok _ => true
  | .error _ => false

lemma setTileOk_tile (s : PSFState) (t : Tile3) :
    (setTileOk s t).tile = if t.shape = s.tile.shape then s.tile else t := by
  unfold setTileOk
  by_cases h : t.shape = s.tile.shape
  · simp [h]
  · simp [h]

lemma setTileOk_tile_shape (s : PSFState) (t : Tile3) :
    (setTileOk s t).tile.shape = t.shape := by
  rw [setTileOk_tile]
  by_cases h : t.shape = s.tile.shape
  · rw [if_pos h, h]
  · rw [if_neg h]

lemma setTile4_tile (s : G4State) (t : Tile3) :
    (setTile4 s t).tile = if t.shape = s.tile.shape then s.tile else t := by
  unfold setTile4
  by_cases h : t.shape = s.tile.shape
  · simp only [h, ne_eq, not_true_eq_false, if_false, if_pos]
    rcases hm : memoLookup4 s.psf2dCache s.tile with _ | pr <;> simp [hm]
  · simp only [ne_eq, h, not_false_eq_true, if_true, if_neg]
    rcases hm : memoLookup4 ({ s with tile := t } : G4State).psf2dCache
        ({ s with tile := t } : G4State).tile with _ | pr <;> simp [hm]

/-- C6: in the shared kernel-construction step, the minimum support is always
rounded up to even per-axis sizes (`evenCeil`, used by `calcMinRpsf`), and
the real-space kernel is padded to the tile's shape by splitting the per-axis
size difference in half, the extra element of an odd difference going on the
high side (`padLow` / `padHigh`, used by `calcKpsf` and `faPad`). -/
theorem C6_even_support_and_pad_split :
    (∀ p : ℝ, 2 ∣ evenCeil p ∧ p ≤ (evenCeil p : ℝ)) ∧
    (∀ (V : PSFVariant) (values : List ℝ),
      2 ∣ (calcMinRpsf V values).2.1 ∧ 2 ∣ (calcMinRpsf V values).2.2.1 ∧
        2 ∣ (calcMinRpsf V values).2.2.2) ∧
    (∀ t s : ℕ, s ≤ t →
      s + (padLow t s + padHigh t s) = t ∧
      ((t - s) % 2 = 0 → padHigh t s = padLow t s) ∧
      ((t - s) % 2 = 1 → padHigh t s = padLow t s + 1)) := by
  refine ⟨fun p => ⟨?_, ?_⟩, fun V values => ?_, fun t s hst => ?_⟩
  · unfold evenCeil; omega
  · calc p ≤ (Nat.ceil p : ℝ) := Nat.le_ceil p
      _ ≤ (evenCeil p : ℝ) := by
        unfold evenCeil; exact_mod_cast Nat.le_add_right _ _
  · simp only [calcMinRpsf]
    unfold evenCeil
    refine ⟨by omega, by omega, by omega⟩
  · unfold padLow padHigh
    omega

/-- Witness for C6 at concrete inputs. -/
theorem C6_even_support_and_pad_split_witness :
    (4 : ℕ) ≤ 7 ∧
    (4 + (padLow 7 4 + padHigh 7 4) = 7 ∧
      ((7 - 4) % 2 = 0 → padHigh 7 4 = padLow 7 4) ∧
      ((7 - 4) % 2 = 1 → padHigh 7 4 = padLow 7 4 + 1)) ∧
    2 ∣ (calcMinRpsf (anisoVariant (1 / 255)) [1, 1]).2.1 :=
  ⟨by decide, C6_even_support_and_pad_split.2.2 7 4 (by decide),
    ((C6_even_support_and_pad_split.2.1 (anisoVariant (1 / 255)) [1, 1]).1)⟩

/-- C1 counterexample: the claim asserts that `set_tile` fails with
`SupportTooSmall` on every variant when a tile dimension is below the minimum
support.  For the tabulated variant `FromArray.set_tile` contains no check
and no failure path: with a support of `(4,4,4)` it accepts and stores the
tile of shape `(2,2,2)`. -/
theorem C1_counterexample :
    (faSetTile sampleFA sampleTileSmall).tile = sampleTileSmall ∧
      anyLt sampleTileSmall.shape (faGetPaddingSize sampleFA) := by
  constructor
  · unfold faSetTile
    rw [if_pos (by decide : sampleTileSmall.shape ≠ sampleFA.tile.shape)]
  · decide

/-- C1 (amended): the minimum-support check lives only in the base 3D
`PSF.set_tile`: it fails with `SupportTooSmall` exactly when some dimension
of the tile is strictly below the minimum support, and with a valid tile it
succeeds and a subsequent `execute` on a field of that tile shape succeeds.
`PSF4D.set_tile`, `FromArray.set_tile` and `IdentityPSF.set_tile` perform no
support check and always succeed, storing the tile whenever its shape
differs. -/
theorem C1_set_tile_support :
    (∀ (s : PSFState) (t : Tile3), anyLt t.shape s.minSupport →
      setTileP s t = .error .supportTooSmall) ∧
    (∀ (s : PSFState) (t : Tile3), ¬ anyLt t.shape s.minSupport →
      setTileP s t = .ok (setTileOk s t)) ∧
    (∀ (s : PSFState) (t : Tile3) (f : Field3), f.shape = t.shape →
      exceptOk (executeP (setTileOk s t) f).1 = true) ∧
    (∀ (s4 : G4State) (t : Tile3),
      (setTile4 s4 t).tile = if t.shape = s4.tile.shape then s4.tile else t) ∧
    (∀ (s : FAState) (t : Tile3),
      (faSetTile s t).tile = if t.shape = s.tile.shape then s.tile else t) ∧
    (∀ (s : PSFState) (t : Tile3),
      (idSetTile s t).tile = if t.shape = s.tile.shape then s.tile else t) := by
  refine ⟨fun s t h => ?_, fun s t h => ?_, fun s t f hf => ?_,
    fun s4 t => setTile4_tile s4 t, fun s t => ?_, fun s t => ?_⟩
  · unfold setTileP
    rw [if_pos h]
  · unfold setTileP
    rw [if_neg h]
  · have hsh : ¬ (f.shape ≠ (setTileOk s t).tile.shape) := by
      rw [setTileOk_tile_shape]
      exact fun hn => hn hf
    unfold executeP
    rw [if_neg hsh]
    rfl
  · unfold faSetTile
    by_cases h : t.shape = s.tile.shape
    · simp [h]
    · simp [h]
  · unfold idSetTile
    by_cases h : t.shape = s.tile.shape
    · simp [h]
    · simp [h]

/-- Witness for C1 at concrete inputs: `samplePSF` with minimum support
`(2,2,2)` accepts the `(2,2,2)` tile; raising the minimum support to
`(3,3,3)` makes the same call fail with `SupportTooSmall`; after accepting
the `(4,4,4)` tile, `execute` on a `(4,4,4)` field succeeds. -/
theorem C1_set_tile_support_witness :
    setTileP samplePSF sampleTileSmall = .ok (setTileOk samplePSF sampleTileSmall) ∧
    setTileP { samplePSF with minSupport := (3, 3, 3) } sampleTileSmall =
      .error .supportTooSmall ∧
    exceptOk (executeP (setTileOk samplePSF sampleTileShift) sampleField4).1 = true :=
  ⟨C1_set_tile_support.2.1 samplePSF sampleTileSmall (by decide),
   C1_set_tile_support.1 { samplePSF with minSupport := (3, 3, 3) }
     sampleTileSmall (by decide),
   C1_set_tile_support.2.2.1 samplePSF sampleTileShift sampleField4 (by decide)⟩

/-- C2 counterexample: the claim asserts that every variant's `execute`
fails with `ShapeMismatch` on a field whose shape differs from the active
tile.  `IdentityPSF.execute` performs no check: it returns the `(2,2,2)`
field although the active tile has shape `(4,4,4)`. -/
theorem C2_counterexample :
    idExecute samplePSF sampleField = sampleField ∧
      sampleField.shape ≠ samplePSF.tile.shape :=
  ⟨rfl, by decide⟩

/-- C2 (amended): for the base 3D PSF, the depth-varying `PSF4D` and the
tabulated `FromArray`, `execute` on a field whose shape differs from the
active tile fails with `ShapeMismatch` before touching any state (the
returned state is exactly the input state).  `IdentityPSF.execute`, however,
performs no shape check and returns the field unchanged for any shape. -/
theorem C2_execute_shape :
    (∀ (s : PSFState) (f : Field3), f.shape ≠ s.tile.shape →
      executeP s f = (.error .shapeMismatch, s)) ∧
    (∀ (s4 : G4State) (f : Field3), f.shape ≠ s4.tile.shape →
      execute4 s4 f = (.error .shapeMismatch, s4)) ∧
    (∀ (s : FAState) (f : Field3), f.shape ≠ s.tile.shape →
      faExecute s f = (.error .shapeMismatch, s)) ∧
    (∀ (s : PSFState) (f : Field3), idExecute s f = f) := by
  refine ⟨fun s f h => ?_, fun s4 f h => ?_, fun s f h => ?_, fun s f => rfl⟩
  · unfold executeP
    rw [if_pos h]
  · unfold execute4
    rw [if_pos h]
  · unfold faExecute
    rw [if_pos h]

/-- Witness for C2 at concrete inputs: the `(2,2,2)` field is rejected by
all three shape-checking variants with the sample states unchanged. -/
theorem C2_execute_shape_witness :
    executeP samplePSF sampleField = (.error .shapeMismatch, samplePSF) ∧
    execute4 sampleG4 sampleField = (.error .shapeMismatch, sampleG4) ∧
    faExecute sampleFA sampleField = (.error .shapeMismatch, sampleFA) :=
  ⟨C2_execute_shape.1 samplePSF sampleField (by decide),
   C2_execute_shape.2.1 sampleG4 sampleField (by decide),
   C2_execute_shape.2.2.1 sampleFA sampleField (by decide)⟩

/-- C8: `set_tile` with a tile of the current shape but a different lower
corner leaves the stored tile (and hence its origin) unchanged, for the base
PSF and for the depth-varying `PSF4D`; in particular the z positions
(`_zpos`) a subsequent `PSF4D.execute` uses are still those of the previously
stored tile. -/
theorem C8_set_tile_same_shape_keeps_origin :
    (∀ (s : PSFState) (t : Tile3), t.shape = s.tile.shape →
      (setTileOk s t).tile = s.tile) ∧
    (∀ (s4 : G4State) (t : Tile3), t.shape = s4.tile.shape →
      (setTile4 s4 t).tile = s4.tile ∧
        zposL (setTile4 s4 t).tile = zposL s4.tile) := by
  refine ⟨fun s t h => ?_, fun s4 t h => ?_⟩
  · rw [setTileOk_tile, if_pos h]
  · have ht : (setTile4 s4 t).tile = s4.tile := by
      rw [setTile4_tile, if_pos h]
    exact ⟨ht, by rw [ht]⟩

/-- Witness for C8 at concrete inputs: tiles with shifted origins but the
current shapes; the stored tiles (with origin `(0,0,0)`) survive. -/
theorem C8_set_tile_same_shape_keeps_origin_witness :
    (setTileOk samplePSF sampleTileShift).tile = samplePSF.tile ∧
    ((setTile4 sampleG4 sampleTileShift4).tile = sampleG4.tile ∧
      zposL (setTile4 sampleG4 sampleTileShift4).tile = zposL sampleG4.tile) ∧
    sampleTileShift.l ≠ samplePSF.tile.l ∧ sampleTileShift4.l ≠ sampleG4.tile.l :=
  ⟨C8_set_tile_same_shape_keeps_origin.1 samplePSF sampleTileShift (by decide),
   C8_set_tile_same_shape_keeps_origin.2 sampleG4 sampleTileShift4 (by decide),
   by decide, by decide⟩

lemma setValues_frame (params : List String) (values : List ℝ) (names : List String)
    (newVals : List ℝ) (hlen : params.length = values.length) (i : ℕ)
    (hn : params.getD i pnameA ∉ names) :
    (setValues params values names newVals).getD i 0 = values.getD i 0 := by
  induction params generalizing values i with
  | nil =>
    cases values with
    | nil => rfl
    | cons v vs => simp at hlen
  | cons p ps ih =>
    cases values with
    | nil => simp at hlen
    | cons v vs =>
      cases i with
      | zero =>
        have hp : p ∉ names := by simpa using hn
        have hfind : (names.zip newVals).find? (fun nv => nv.1 == p) = none := by
          refine List.find?_eq_none.mpr fun nv hnv => ?_
          have hmem : nv.1 ∈ names := (List.of_mem_zip hnv).1
          simp only [beq_iff_eq]
          intro hEq
          exact hp (hEq ▸ hmem)
        simp only [setValues, List.getD_cons_zero]
        rw [hfind]
        rfl
      | succ n =>
        simp only [setValues, List.getD_cons_succ]
        exact ih vs (by simpa using hlen) n (by simpa using hn)

lemma setValues_named (params : List String) (values : List ℝ) (names : List String)
    (newVals : List ℝ) (i : ℕ) (pr : String × ℝ)
    (hlen : params.length = values.length) (hi : i < params.length)
    (hfind : (names.zip newVals).find? (fun nv => nv.1 == params.getD i pnameA) =
      some pr) :
    (setValues params values names newVals).getD i 0 = pr.2 := by
  induction params generalizing values i with
  | nil => simp at hi
  | cons p ps ih =>
    cases values with
    | nil => simp at hlen
    | cons v vs =>
      cases i with
      | zero =>
        simp only [List.getD_cons_zero] at hfind
        simp only [setValues, List.getD_cons_zero]
        rw [hfind]
        rfl
      | succ n =>
        simp only [List.getD_cons_succ] at hfind
        simp only [setValues, List.getD_cons_succ]
        exact ih vs n (by simpa using hlen) (by simpa using hi) hfind

lemma setTileOk_empty_cache (u : PSFState) (hc : u.kpsfCache = []) (t : Tile3) :
    (setTileOk u t).kpsf = calcKpsf u.minSupport u.minRpsf t.shape := by
  unfold setTileOk calcKpsfMemo memoLookup
  by_cases h : t.shape = u.tile.shape
  · simp [h, hc]
  · simp [h, hc]

/-- C7: `update(names, values)` changes only the named parameter values,
recomputes the minimum support from the new values, and invalidates the
memoized kernel caches so that the next `set_tile` recomputes the kernel:
for the base 3D `PSF` eagerly (`min_rpsf` / `min_support` stored fields) and
for `PSF4D` by clearing the `_calc_tile_2d_psf` cache. -/
theorem C7_update_frame_and_invalidate :
    (∀ (V : PSFVariant) (s : PSFState) (names : List String) (vals : List ℝ) (i : ℕ),
      s.params.length = s.values.length → s.params.getD i pnameA ∉ names →
      (updateP V s names vals).values.getD i 0 = s.values.getD i 0) ∧
    (∀ (V : PSFVariant) (s : PSFState) (names : List String) (vals : List ℝ)
        (i : ℕ) (pr : String × ℝ),
      s.params.length = s.values.length → i < s.params.length →
      (names.zip vals).find? (fun nv => nv.1 == s.params.getD i pnameA) = some pr →
      (updateP V s names vals).values.getD i 0 = pr.2) ∧
    (∀ (V : PSFVariant) (s : PSFState) (names : List String) (vals : List ℝ),
      (updateP V s names vals).minSupport =
        (calcMinRpsf V (setValues s.params s.values names vals)).2 ∧
      (updateP V s names vals).minRpsf =
        (calcMinRpsf V (setValues s.params s.values names vals)).1 ∧
      (updateP V s names vals).kpsfCache = [] ∧
      (∀ sh : Shape3, memoLookup (updateP V s names vals).kpsfCache sh = none) ∧
      (∀ t : Tile3, (setTileOk (updateP V s names vals) t).kpsf =
        calcKpsf (updateP V s names vals).minSupport
          (updateP V s names vals).minRpsf t.shape)) ∧
    (∀ (s4 : G4State) (names : List String) (vals : List ℝ) (i : ℕ),
      s4.params.length = s4.values.length → s4.params.getD i pnameA ∉ names →
      (update4 s4 names vals).values.getD i 0 = s4.values.getD i 0) ∧
    (∀ (s4 : G4State) (names : List String) (vals : List ℝ),
      (update4 s4 names vals).psf2dCache = [] ∧
      (update4 s4 names vals).tile = s4.tile ∧
      (∀ t : Tile3, memoLookup4 (update4 s4 names vals).psf2dCache t = none)) := by
  refine ⟨fun V s names vals i hlen hn => ?_,
    fun V s names vals i pr hlen hi hfind => ?_,
    fun V s names vals => ⟨rfl, rfl, rfl, fun sh => rfl, fun t =>
      setTileOk_empty_cache (updateP V s names vals) rfl t⟩,
    fun s4 names vals i hlen hn => ?_,
    fun s4 names vals => ⟨rfl, rfl, fun t => rfl⟩⟩
  · exact setValues_frame s.params s.values names vals hlen i hn
  · exact setValues_named s.params s.values names vals i pr hlen hi hfind
  · exact setValues_frame s4.params s4.values names vals hlen i hn

/-- Witness for C7 at concrete inputs: updating `samplePSF`'s single
parameter `pnameA` by name sets it to `5`; an update naming only the absent
`pnameB` leaves it at its old value `1`; the 4D sample state behaves the
same on its unnamed parameter. -/
theorem C7_update_frame_and_invalidate_witness :
    (updateP (anisoVariant (1 / 255)) samplePSF [pnameB] [5]).values.getD 0 0 =
      samplePSF.values.getD 0 0 ∧
    (updateP (anisoVariant (1 / 255)) samplePSF [pnameA] [5]).values.getD 0 0 = 5 ∧
    (update4 sampleG4 [pnameB] [7]).values.getD 0 0 = sampleG4.values.getD 0 0 :=
  ⟨C7_update_frame_and_invalidate.1 (anisoVariant (1 / 255)) samplePSF
      [pnameB] [5] 0 (by decide) (by decide),
   C7_update_frame_and_invalidate.2.1 (anisoVariant (1 / 255)) samplePSF
      [pnameA] [5] 0 (pnameA, 5) (by decide) (by decide) rfl,
   C7_update_frame_and_invalidate.2.2.2.1 sampleG4 [pnameB] [7] 0
      (by decide) (by decide)⟩

lemma calcKpsf_dc (ms : Shape3) (mr : Arr3R) (ts : Shape3)
    (h1 : ms.1 ≤ ts.1) (h2 : ms.2.1 ≤ ts.2.1) (h3 : ms.2.2 ≤ ts.2.2)
    (p1 : 0 < ts.1) (p2 : 0 < ts.2.1) (p3 : 0 < ts.2.2) :
    calcKpsf ms mr ts 0 0 0 =
      (((sum3 ms mr) / (sum3 ms mr + 1e-15) : ℝ) : ℂ) := by
  obtain ⟨t1, t2, t3⟩ := ts
  obtain ⟨m1, m2, m3⟩ := ms
  simp only at h1 h2 h3 p1 p2 p3
  have e1 : padLow t1 m1 + m1 + padHigh t1 m1 = t1 := by unfold padLow padHigh; omega
  have e2 : padLow t2 m2 + m2 + padHigh t2 m2 = t2 := by unfold padLow padHigh; omega
  have e3 : padLow t3 m3 + m3 + padHigh t3 m3 = t3 := by unfold padLow padHigh; omega
  have hsum : sum3 (t1, t2, t3)
      (pad3 (padLow t1 m1, padLow t2 m2, padLow t3 m3) (m1, m2, m3) mr) =
      sum3 (m1, m2, m3) mr := by
    have h := sum3_pad3 (padLow t1 m1) m1 (padHigh t1 m1) (padLow t2 m2) m2
      (padHigh t2 m2) (padLow t3 m3) m3 (padHigh t3 m3) mr
    rwa [e1, e2, e3] at h
  simp only [calcKpsf]
  rw [dft3_zero_freq]
  rw [sum3_ifftshift3 _ p1 p2 p3]
  rw [hsum]
  simp only [Complex.ofReal_re]
  rw [Complex.ofReal_div]

lemma dc_close_to_one (S : ℝ) (hS : 1 ≤ S) :
    |S / (S + 1e-15) - 1| ≤ 1e-15 := by
  have hε : (0 : ℝ) < 1e-15 := by norm_num
  have hden : 0 < S + 1e-15 := by linarith
  have heq : S / (S + 1e-15) - 1 = -(1e-15) / (S + 1e-15) := by field_simp
  rw [heq, abs_div, abs_neg, abs_of_pos hε, abs_of_pos hden, div_le_iff₀ hden]
  nlinarith

lemma anisoRpsfFunc_nonneg (error : ℝ) (values : List ℝ) (rz ry rx : ℝ) :
    0 ≤ anisoRpsfFunc error values rz ry rx := by
  unfold anisoRpsfFunc
  apply mul_nonneg
  apply mul_nonneg
  · exact (Real.exp_pos _).le
  · split_ifs <;> norm_num
  · split_ifs <;> norm_num

lemma anisoRpsfFunc_center (error : ℝ) (values : List ℝ) :
    anisoRpsfFunc error values 0 0 0 = 1 := by
  simp only [anisoRpsfFunc]
  have c1 : ((0 : ℝ) ^ 2 + 0 ^ 2) ≤
      (Real.sqrt (-2 * Real.log error * (values.getD 0 0) ^ 2)) ^ 2 := by
    norm_num
  have c2 : |(0 : ℝ)| ≤ Real.sqrt (-2 * Real.log error * (values.getD 1 0) ^ 2) := by
    rw [abs_zero]
    exact Real.sqrt_nonneg _
  rw [if_pos c1, if_pos c2]
  norm_num [Real.exp_zero]

lemma evenCeil_pos (p : ℝ) (hp : 0 < p) : 0 < evenCeil p := by
  unfold evenCeil
  have h := Nat.ceil_pos.mpr hp
  omega

lemma rvecsCoord_center (n : ℕ) : rvecsCoord n (n / 2) = 0 := sub_self _

lemma anisoMinRpsf_sum_ge_one (error : ℝ) (values : List ℝ)
    (h0 : 0 < error) (h1 : error < 1)
    (hv0 : values.getD 0 0 ≠ 0) (hv1 : values.getD 1 0 ≠ 0) :
    1 ≤ sum3 (calcMinRpsf (anisoVariant error) values).2
      (calcMinRpsf (anisoVariant error) values).1 := by
  have hlog : Real.log error < 0 := Real.log_neg h0 h1
  have hv0sq : 0 < (values.getD 0 0) ^ 2 :=
    lt_of_le_of_ne (sq_nonneg _) (Ne.symm (pow_ne_zero 2 hv0))
  have hv1sq : 0 < (values.getD 1 0) ^ 2 :=
    lt_of_le_of_ne (sq_nonneg _) (Ne.symm (pow_ne_zero 2 hv1))
  have hargr : 0 < -2 * Real.log error * (values.getD 0 0) ^ 2 := by nlinarith
  have hargz : 0 < -2 * Real.log error * (values.getD 1 0) ^ 2 := by nlinarith
  have hpr := Real.sqrt_pos.mpr hargr
  have hpz := Real.sqrt_pos.mpr hargz
  have hm : (calcMinRpsf (anisoVariant error) values).2 =
      (evenCeil (Real.sqrt (-2 * Real.log error * (values.getD 1 0) ^ 2)),
       evenCeil (Real.sqrt (-2 * Real.log error * (values.getD 0 0) ^ 2)),
       evenCeil (Real.sqrt (-2 * Real.log error * (values.getD 0 0) ^ 2))) := rfl
  have hmr : (calcMinRpsf (anisoVariant error) values).1 = fun i j l =>
      anisoRpsfFunc error values
        (rvecsCoord (evenCeil (Real.sqrt (-2 * Real.log error *
          (values.getD 1 0) ^ 2))) i)
        (rvecsCoord (evenCeil (Real.sqrt (-2 * Real.log error *
          (values.getD 0 0) ^ 2))) j)
        (rvecsCoord (evenCeil (Real.sqrt (-2 * Real.log error *
          (values.getD 0 0) ^ 2))) l) := rfl
  rw [hm, hmr]
  set nz := evenCeil (Real.sqrt (-2 * Real.log error * (values.getD 1 0) ^ 2))
  set nr := evenCeil (Real.sqrt (-2 * Real.log error * (values.getD 0 0) ^ 2))
  have hnzpos : 0 < nz := evenCeil_pos _ hpz
  have hnrpos : 0 < nr := evenCeil_pos _ hpr
  have hcenter : anisoRpsfFunc error values (rvecsCoord nz (nz / 2))
      (rvecsCoord nr (nr / 2)) (rvecsCoord nr (nr / 2)) = 1 := by
    rw [rvecsCoord_center, rvecsCoord_center]
    exact anisoRpsfFunc_center error values
  have hle := sum3_ge_entry (nz, nr, nr)
    (fun i j l => anisoRpsfFunc error values
      (rvecsCoord nz i) (rvecsCoord nr j) (rvecsCoord nr l))
    (fun i j l => anisoRpsfFunc_nonneg error values _ _ _)
    (nz / 2) (nr / 2) (nr / 2)
    (Nat.div_lt_self hnzpos (by norm_num))
    (Nat.div_lt_self hnrpos (by norm_num))
    (Nat.div_lt_self hnrpos (by norm_num))
  simpa only [hcenter] using hle

lemma xyzRpsfFunc_nonneg (error : ℝ) (values : List ℝ) (rz ry rx : ℝ) :
    0 ≤ xyzRpsfFunc error values rz ry rx := by
  unfold xyzRpsfFunc
  apply mul_nonneg (Real.exp_pos _).le
  apply mul_nonneg
  apply mul_nonneg
  · split_ifs <;> norm_num
  · split_ifs <;> norm_num
  · split_ifs <;> norm_num

lemma xyzRpsfFunc_center (error : ℝ) (values : List ℝ) :
    xyzRpsfFunc error values 0 0 0 = 1 := by
  simp only [xyzRpsfFunc]
  have c0 : |(0 : ℝ)| ≤ Real.sqrt (-2 * Real.log error * (values.getD 2 0) ^ 2) := by
    rw [abs_zero]
    exact Real.sqrt_nonneg _
  have c1 : |(0 : ℝ)| ≤ Real.sqrt (-2 * Real.log error * (values.getD 1 0) ^ 2) := by
    rw [abs_zero]
    exact Real.sqrt_nonneg _
  have c2 : |(0 : ℝ)| ≤ Real.sqrt (-2 * Real.log error * (values.getD 0 0) ^ 2) := by
    rw [abs_zero]
    exact Real.sqrt_nonneg _
  rw [if_pos c0, if_pos c1, if_pos c2]
  norm_num [Real.exp_zero]

lemma xyzMinRpsf_sum_ge_one (error : ℝ) (values : List ℝ)
    (h0 : 0 < error) (h1 : error < 1)
    (hv0 : values.getD 0 0 ≠ 0) (hv1 : values.getD 1 0 ≠ 0)
    (hv2 : values.getD 2 0 ≠ 0) :
    1 ≤ sum3 (calcMinRpsf (xyzVariant error) values).2
      (calcMinRpsf (xyzVariant error) values).1 := by
  have hlog : Real.log error < 0 := Real.log_neg h0 h1
  have hv0sq : 0 < (values.getD 0 0) ^ 2 :=
    lt_of_le_of_ne (sq_nonneg _) (Ne.symm (pow_ne_zero 2 hv0))
  have hv1sq : 0 < (values.getD 1 0) ^ 2 :=
    lt_of_le_of_ne (sq_nonneg _) (Ne.symm (pow_ne_zero 2 hv1))
  have hv2sq : 0 < (values.getD 2 0) ^ 2 :=
    lt_of_le_of_ne (sq_nonneg _) (Ne.symm (pow_ne_zero 2 hv2))
  have harg0 : 0 < -2 * Real.log error * (values.getD 0 0) ^ 2 := by nlinarith
  have harg1 : 0 < -2 * Real.log error * (values.getD 1 0) ^ 2 := by nlinarith
  have harg2 : 0 < -2 * Real.log error * (values.getD 2 0) ^ 2 := by nlinarith
  have hp0 := Real.sqrt_pos.mpr harg0
  have hp1 := Real.sqrt_pos.mpr harg1
  have hp2 := Real.sqrt_pos.mpr harg2
  have hm : (calcMinRpsf (xyzVariant error) values).2 =
      (evenCeil (Real.sqrt (-2 * Real.log error * (values.getD 0 0) ^ 2)),
       evenCeil (Real.sqrt (-2 * Real.log error * (values.getD 1 0) ^ 2)),
       evenCeil (Real.sqrt (-2 * Real.log error * (values.getD 2 0) ^ 2))) := rfl
  have hmr : (calcMinRpsf (xyzVariant error) values).1 = fun i j l =>
      xyzRpsfFunc error values
        (rvecsCoord (evenCeil (Real.sqrt (-2 * Real.log error *
          (values.getD 0 0) ^ 2))) i)
        (rvecsCoord (evenCeil (Real.sqrt (-2 * Real.log error *
          (values.getD 1 0) ^ 2))) j)
        (rvecsCoord (evenCeil (Real.sqrt (-2 * Real.log error *
          (values.getD 2 0) ^ 2))) l) := rfl
  rw [hm, hmr]
  set n0 := evenCeil (Real.sqrt (-2 * Real.log error * (values.getD 0 0) ^ 2))
  set n1 := evenCeil (Real.sqrt (-2 * Real.log error * (values.getD 1 0) ^ 2))
  set n2 := evenCeil (Real.sqrt (-2 * Real.log error * (values.getD 2 0) ^ 2))
  have hn0pos : 0 < n0 := evenCeil_pos _ hp0
  have hn1pos : 0 < n1 := evenCeil_pos _ hp1
  have hn2pos : 0 < n2 := evenCeil_pos _ hp2
  have hcenter : xyzRpsfFunc error values (rvecsCoord n0 (n0 / 2))
      (rvecsCoord n1 (n1 / 2)) (rvecsCoord n2 (n2 / 2)) = 1 := by
    rw [rvecsCoord_center, rvecsCoord_center, rvecsCoord_center]
    exact xyzRpsfFunc_center error values
  have hle := sum3_ge_entry (n0, n1, n2)
    (fun i j l => xyzRpsfFunc error values
      (rvecsCoord n0 i) (rvecsCoord n1 j) (rvecsCoord n2 l))
    (fun i j l => xyzRpsfFunc_nonneg error values _ _ _)
    (n0 / 2) (n1 / 2) (n2 / 2)
    (Nat.div_lt_self hn0pos (by norm_num))
    (Nat.div_lt_self hn1pos (by norm_num))
    (Nat.div_lt_self hn2pos (by norm_num))
  simpa only [hcenter] using hle

/-- C4 counterexample: the claim covers "each padded per-layer kernel of the
tabulated variant"; but `FromArray` accepts arbitrary (not necessarily
normalizable) tables, and for an all-zero layer the padded kernel's DC
component is `0/(0 + 1e-15) = 0`, not 1 within any tolerance. -/
theorem C4_counterexample :
    faPad sampleFA0 (fun _ _ _ => 0) =
      .ok (calcKpsf (2, 2, 2) (fun _ _ _ => 0) (2, 2, 2)) ∧
    calcKpsf (2, 2, 2) (fun _ _ _ => 0) (2, 2, 2) 0 0 0 = 0 ∧
    ¬ |(calcKpsf (2, 2, 2) (fun _ _ _ => 0) (2, 2, 2) 0 0 0).re - 1| ≤ 1e-6 := by
  have hdc : calcKpsf (2, 2, 2) (fun _ _ _ => 0) (2, 2, 2) 0 0 0 = 0 := by
    rw [calcKpsf_dc (2, 2, 2) (fun _ _ _ => 0) (2, 2, 2) (by norm_num) (by norm_num)
      (by norm_num) (by norm_num) (by norm_num) (by norm_num)]
    have hz : sum3 (2, 2, 2) (fun _ _ _ => (0 : ℝ)) = 0 := by simp [sum3]
    rw [hz]
    norm_num
  refine ⟨?_, hdc, ?_⟩
  · unfold faPad
    rw [if_neg (by decide : ¬ anyLt sampleFA0.tile.shape sampleFA0.support)]
    rfl
  · rw [hdc]
    norm_num

/-- C4 (amended): the normalized DC component of every constructed
frequency-space kernel equals `S / (S + 1e-15)` where `S` is the total sum of
the real-space kernel being padded; hence it is within `1e-15` of 1 whenever
`S ≥ 1`, which holds for both analytic 3D Gaussian minimum kernels
(`AnisotropicGaussian` and `AnisotropicGaussianXYZ`: their center entry is 1
and all entries are nonnegative).  The per-z-layer 2D kernels of both
depth-varying variants (`Gaussian4D` and `GaussianMomentExpansion`) have DC
exactly 1 by direct assignment.  For the tabulated variant the same
`S/(S + 1e-15)` identity holds, but `S` is the user table layer's sum, which
need not be near 1 (an all-zero layer gives DC 0, see the counterexample). -/
theorem C4_dc_normalization :
    (∀ (ms : Shape3) (mr : Arr3R) (ts : Shape3),
      ms.1 ≤ ts.1 → ms.2.1 ≤ ts.2.1 → ms.2.2 ≤ ts.2.2 →
      0 < ts.1 → 0 < ts.2.1 → 0 < ts.2.2 →
      calcKpsf ms mr ts 0 0 0 =
        (((sum3 ms mr) / (sum3 ms mr + 1e-15) : ℝ) : ℂ)) ∧
    (∀ (ms : Shape3) (mr : Arr3R) (ts : Shape3),
      ms.1 ≤ ts.1 → ms.2.1 ≤ ts.2.1 → ms.2.2 ≤ ts.2.2 →
      0 < ts.1 → 0 < ts.2.1 → 0 < ts.2.2 → 1 ≤ sum3 ms mr →
      |(calcKpsf ms mr ts 0 0 0).re - 1| ≤ 1e-15) ∧
    (∀ (error : ℝ) (values : List ℝ), 0 < error → error < 1 →
      values.getD 0 0 ≠ 0 → values.getD 1 0 ≠ 0 →
      1 ≤ sum3 (calcMinRpsf (anisoVariant error) values).2
        (calcMinRpsf (anisoVariant error) values).1) ∧
    (∀ (error : ℝ) (values : List ℝ), 0 < error → error < 1 →
      values.getD 0 0 ≠ 0 → values.getD 1 0 ≠ 0 → values.getD 2 0 ≠ 0 →
      1 ≤ sum3 (calcMinRpsf (xyzVariant error) values).2
        (calcMinRpsf (xyzVariant error) values).1) ∧
    (∀ (s : G4State) (t : Tile3) (i : ℕ), (calc2dPsf s t).2 i 0 0 = 1) ∧
    (∀ (s : GMEState) (t : Tile3) (i : ℕ), (gmeCalc2dPsf s t).2 i 0 0 = 1) ∧
    (∀ (s : FAState) (field : Arr3R), ¬ anyLt s.tile.shape s.support →
      0 < s.tile.shape.1 → 0 < s.tile.shape.2.1 → 0 < s.tile.shape.2.2 →
      faPad s field = .ok (calcKpsf s.support field s.tile.shape) ∧
      calcKpsf s.support field s.tile.shape 0 0 0 =
        (((sum3 s.support field) / (sum3 s.support field + 1e-15) : ℝ) : ℂ)) := by
  refine ⟨fun ms mr ts h1 h2 h3 p1 p2 p3 =>
      calcKpsf_dc ms mr ts h1 h2 h3 p1 p2 p3,
    fun ms mr ts h1 h2 h3 p1 p2 p3 hS => ?_,
    fun error values h0 h1 hv0 hv1 =>
      anisoMinRpsf_sum_ge_one error values h0 h1 hv0 hv1,
    fun error values h0 h1 hv0 hv1 hv2 =>
      xyzMinRpsf_sum_ge_one error values h0 h1 hv0 hv1 hv2,
    fun s t i => by simp [calc2dPsf],
    fun s t i => by simp [gmeCalc2dPsf],
    fun s field hlt q1 q2 q3 => ?_⟩
  · rw [calcKpsf_dc ms mr ts h1 h2 h3 p1 p2 p3, Complex.ofReal_re]
    exact dc_close_to_one _ hS
  · have hle : s.support.1 ≤ s.tile.shape.1 ∧ s.support.2.1 ≤ s.tile.shape.2.1 ∧
        s.support.2.2 ≤ s.tile.shape.2.2 := by
      unfold anyLt at hlt
      push_neg at hlt
      exact ⟨hlt.1, hlt.2.1, hlt.2.2⟩
    refine ⟨?_, calcKpsf_dc s.support field s.tile.shape hle.1 hle.2.1 hle.2.2 q1 q2 q3⟩
    unfold faPad
    rw [if_neg hlt]

/-- Witness for C4 at concrete inputs: a constant-1 kernel of support
`(2,2,2)` padded to a `(4,4,4)` tile (sum `S = 8 ≥ 1`), the sample aniso
parameter values `[1, 1]` and XYZ values `[1, 1, 1]` with threshold `1/255`,
the first layer of the sample 4D kernel stacks of both depth-varying
variants, and the sample `FromArray` state. -/
theorem C4_dc_normalization_witness :
    calcKpsf (2, 2, 2) (fun _ _ _ => 1) (4, 4, 4) 0 0 0 =
      (((sum3 (2, 2, 2) (fun _ _ _ => 1)) /
        (sum3 (2, 2, 2) (fun _ _ _ => 1) + 1e-15) : ℝ) : ℂ) ∧
    |(calcKpsf (2, 2, 2) (fun _ _ _ => 1) (4, 4, 4) 0 0 0).re - 1| ≤ 1e-15 ∧
    1 ≤ sum3 (calcMinRpsf (anisoVariant (1 / 255)) [1, 1]).2
      (calcMinRpsf (anisoVariant (1 / 255)) [1, 1]).1 ∧
    1 ≤ sum3 (calcMinRpsf (xyzVariant (1 / 255)) [1, 1, 1]).2
      (calcMinRpsf (xyzVariant (1 / 255)) [1, 1, 1]).1 ∧
    (calc2dPsf sampleG4 sampleTileShift4).2 0 0 0 = 1 ∧
    (gmeCalc2dPsf sampleGME sampleTileShift4).2 0 0 0 = 1 ∧
    faPad sampleFA (fun _ _ _ => 1) =
      .ok (calcKpsf sampleFA.support (fun _ _ _ => 1) sampleFA.tile.shape) := by
  have hS : (1 : ℝ) ≤ sum3 (2, 2, 2) (fun _ _ _ => 1) := by
    simp [sum3]
    norm_num
  have hv0 : ([(1 : ℝ), 1].getD 0 0) ≠ 0 := by
    rw [show ([(1 : ℝ), 1].getD 0 0) = 1 from rfl]
    norm_num
  have hv1 : ([(1 : ℝ), 1].getD 1 0) ≠ 0 := by
    rw [show ([(1 : ℝ), 1].getD 1 0) = 1 from rfl]
    norm_num
  have hw0 : ([(1 : ℝ), 1, 1].getD 0 0) ≠ 0 := by
    rw [show ([(1 : ℝ), 1, 1].getD 0 0) = 1 from rfl]
    norm_num
  have hw1 : ([(1 : ℝ), 1, 1].getD 1 0) ≠ 0 := by
    rw [show ([(1 : ℝ), 1, 1].getD 1 0) = 1 from rfl]
    norm_num
  have hw2 : ([(1 : ℝ), 1, 1].getD 2 0) ≠ 0 := by
    rw [show ([(1 : ℝ), 1, 1].getD 2 0) = 1 from rfl]
    norm_num
  exact ⟨C4_dc_normalization.1 (2, 2, 2) (fun _ _ _ => 1) (4, 4, 4)
      (by norm_num) (by norm_num) (by norm_num) (by norm_num) (by norm_num)
      (by norm_num),
    C4_dc_normalization.2.1 (2, 2, 2) (fun _ _ _ => 1) (4, 4, 4)
      (by norm_num) (by norm_num) (by norm_num) (by norm_num) (by norm_num)
      (by norm_num) hS,
    C4_dc_normalization.2.2.1 (1 / 255) [1, 1] (by norm_num) (by norm_num)
      hv0 hv1,
    C4_dc_normalization.2.2.2.1 (1 / 255) [1, 1, 1] (by norm_num)
      (by norm_num) hw0 hw1 hw2,
    C4_dc_normalization.2.2.2.2.1 sampleG4 sampleTileShift4 0,
    C4_dc_normalization.2.2.2.2.2.1 sampleGME sampleTileShift4 0,
    (C4_dc_normalization.2.2.2.2.2.2 sampleFA (fun _ _ _ => 1) (by decide)
      (by decide) (by decide) (by decide)).1⟩

/-- A sample `Gaussian4D` state whose constant axial width `0.5` is small
enough that the radius formula falls below the `2.1` floor. -/
def sampleG4narrow : G4State :=
  { sampleG4 with values := [0.5, 1, 1] }

lemma log255_pos : 0 < Real.log 255 := Real.log_pos (by norm_num)

lemma log_inv255 : Real.log (1 / 255 : ℝ) = -Real.log 255 := by
  rw [one_div, Real.log_inv]

lemma log255_lt : Real.log 255 < 5.6 := by
  have h1 : Real.log 255 ≤ Real.log 256 :=
    (Real.log_le_log_iff (by norm_num) (by norm_num)).mpr (by norm_num)
  have h2 : Real.log 256 = 8 * Real.log 2 := by
    rw [show (256 : ℝ) = 2 ^ (8 : ℕ) from by norm_num, Real.log_pow]
    norm_num
  nlinarith [Real.log_two_lt_d9]

lemma one_lt_log255 : 1 < Real.log 255 := by
  rw [Real.lt_log_iff_exp_lt (by norm_num)]
  calc Real.exp 1 < 2.7182818286 := Real.exp_one_lt_d9
    _ < 255 := by norm_num

/-- C3 counterexample: the claim asserts that `get_padding_size` returns
exactly `sqrt(-2 ln(error) σ²)` with `σ` the parameter value for that axis.
Two divergences: (1) the depth-varying variants floor the radius at `2.1`,
so for `σ_z = 0.5` (below the default `sigmas=(2.0,0.5,1.0)` y value!) the
returned radius is `2.1`, not the formula value; (2) `AnisotropicGaussian`
computes the z radius from `values[1]` although the parameter named
`psf-sig-z` is `values[0]` (names and uses are swapped), so with values
`[1, 2]` the z radius is the formula at `2`, not at the z-named value `1`. -/
theorem C3_counterexample :
    (g4PaddingSize sampleG4narrow 0).1 ≠
      radiusFormula sampleG4narrow.error (g4Sigma sampleG4narrow 0 0) ∧
    (anisoPaddingSize (1 / 255) [1, 2]).1 ≠ radiusFormula (1 / 255) 1 := by
  have hc : g4SigmaCoeffs sampleG4narrow 0 = [0.5] := rfl
  have hσ : g4Sigma sampleG4narrow 0 0 = 0.5 := by
    unfold g4Sigma
    rw [hc]
    simp [evalPoly]
  have herr : sampleG4narrow.error = (1 / 255 : ℝ) := rfl
  constructor
  · have hr : radiusFormula (1 / 255) (0.5 : ℝ) < 2.1 := by
      unfold radiusFormula
      rw [log_inv255, show (-2 : ℝ) * -Real.log 255 * (0.5 : ℝ) ^ 2 =
        0.5 * Real.log 255 from by ring,
        Real.sqrt_lt' (by norm_num : (0 : ℝ) < 2.1)]
      nlinarith [log255_lt, log255_pos]
    show max (Real.sqrt (-2 * Real.log sampleG4narrow.error *
        (g4Sigma sampleG4narrow 0 0) ^ 2)) 2.1 ≠ _
    rw [show (Real.sqrt (-2 * Real.log sampleG4narrow.error *
        (g4Sigma sampleG4narrow 0 0) ^ 2)) =
      radiusFormula sampleG4narrow.error (g4Sigma sampleG4narrow 0 0) from rfl]
    rw [herr, hσ, max_eq_right hr.le]
    exact hr.ne'
  · show Real.sqrt (-2 * Real.log (1 / 255) * (([(1 : ℝ), 2].getD 1 0) ^ 2)) ≠ _
    have hg : ([(1 : ℝ), 2].getD 1 0) = 2 := rfl
    rw [hg]
    unfold radiusFormula
    apply ne_of_gt
    apply Real.sqrt_lt_sqrt
    · nlinarith [log255_pos, log_inv255]
    · nlinarith [log255_pos, log_inv255]

/-- C3 (amended): per axis the returned radius is the spec's formula
`sqrt(-2 ln(error) σ²)`, but with the following code-level provisos: for
`AnisotropicGaussian` the transverse radii use `values[0]` and the axial
radius uses `values[1]` (the reverse of the `['psf-sig-z','psf-sig-rho']`
naming); `AnisotropicGaussianXYZ` matches name order; and the depth-varying
variants return the pointwise maximum of the formula (at the per-axis
polynomial sigma evaluated at `z/zrange`) and the floor `2.1` — the plain
formula value only when it is at least `2.1`. -/
theorem C3_padding_radius_formula :
    (∀ (error : ℝ) (values : List ℝ),
      anisoPaddingSize error values =
        (radiusFormula error (values.getD 1 0),
         radiusFormula error (values.getD 0 0),
         radiusFormula error (values.getD 0 0)) ∧
      xyzPaddingSize error values =
        (radiusFormula error (values.getD 0 0),
         radiusFormula error (values.getD 1 0),
         radiusFormula error (values.getD 2 0))) ∧
    (∀ (s : G4State) (z : ℝ),
      g4PaddingSize s z =
        (max (radiusFormula s.error (g4Sigma s z 0)) 2.1,
         max (radiusFormula s.error (g4Sigma s z 1)) 2.1,
         max (radiusFormula s.error (g4Sigma s z 2)) 2.1) ∧
      (radiusFormula s.error (g4Sigma s z 0) ≤ 2.1 → (g4PaddingSize s z).1 = 2.1) ∧
      (2.1 ≤ radiusFormula s.error (g4Sigma s z 0) →
        (g4PaddingSize s z).1 = radiusFormula s.error (g4Sigma s z 0))) ∧
    (∀ (s : GMEState) (z : ℝ),
      gmePaddingSize s z =
        (max (radiusFormula s.error (gmeSigma s z 0)) 2.1,
         max (radiusFormula s.error (gmeSigma s z 1)) 2.1,
         max (radiusFormula s.error (gmeSigma s z 2)) 2.1)) := by
  refine ⟨fun error values => ⟨rfl, rfl⟩, fun s z => ⟨rfl, fun h => ?_, fun h => ?_⟩,
    fun s z => rfl⟩
  · exact max_eq_right h
  · exact max_eq_left h

/-- Witness for C3 at concrete inputs: for the sample `Gaussian4D` with
`σ_z = 2` the formula value exceeds `2.1` and is returned as is; for the
narrow state with `σ_z = 0.5` the floor `2.1` is returned. -/
theorem C3_padding_radius_formula_witness :
    (g4PaddingSize sampleG4 0).1 =
      radiusFormula sampleG4.error (g4Sigma sampleG4 0 0) ∧
    (g4PaddingSize sampleG4narrow 0).1 = 2.1 := by
  constructor
  · apply (C3_padding_radius_formula.2.1 sampleG4 0).2.2
    have hc : g4SigmaCoeffs sampleG4 0 = [2] := rfl
    have hσ : g4Sigma sampleG4 0 0 = 2 := by
      unfold g4Sigma
      rw [hc]
      simp [evalPoly]
    have herr : sampleG4.error = (1 / 255 : ℝ) := rfl
    rw [herr, hσ]
    unfold radiusFormula
    rw [Real.le_sqrt' (by norm_num : (0 : ℝ) < 2.1)]
    nlinarith [one_lt_log255, log_inv255]
  · apply (C3_padding_radius_formula.2.1 sampleG4narrow 0).2.1
    have hc : g4SigmaCoeffs sampleG4narrow 0 = [0.5] := rfl
    have hσ : g4Sigma sampleG4narrow 0 0 = 0.5 := by
      unfold g4Sigma
      rw [hc]
      simp [evalPoly]
    have herr : sampleG4narrow.error = (1 / 255 : ℝ) := rfl
    rw [herr, hσ]
    unfold radiusFormula
    rw [log_inv255, show (-2 : ℝ) * -Real.log 255 * (0.5 : ℝ) ^ 2 =
      0.5 * Real.log 255 from by ring]
    apply le_of_lt
    rw [Real.sqrt_lt' (by norm_num : (0 : ℝ) < 2.1)]
    nlinarith [log255_lt, log255_pos]

lemma list_sum_map_div (l : List ℝ) (c : ℝ) :
    (l.map fun x => x / c).sum = l.sum / c := by
  induction l with
  | nil => simp
  | cons x xs ih => simp [ih, add_div]

lemma g4RpsfZRaw_sum_pos (s : G4State) (zs : List ℝ) (zp : ℝ) (hne : zs ≠ [])
    (hin : ∀ z ∈ zs, |z - zp| ≤ (g4PaddingSize s zp).1) :
    0 < (g4RpsfZRaw s zs zp).sum := by
  unfold g4RpsfZRaw
  apply List.sum_pos
  · intro x hx
    rcases List.mem_map.mp hx with ⟨z, hz, rfl⟩
    rw [if_pos (hin z hz), mul_one]
    exact Real.exp_pos _
  · simpa using hne

/-- C5: for the depth-varying variants, the axial weight vector returned by
`rpsf_z` over a nonempty set of layer positions within the axial padding
radius of `z0` sums to 1.  For `Gaussian4D` the unnormalized weights are
strictly positive, so no further condition is needed; for
`GaussianMomentExpansion` the moment prefactor makes the weights signed, and
the result holds whenever the normalizer (the unnormalized weight sum the
code divides by) is nonzero. -/
theorem C5_rpsf_z_sums_to_one :
    (∀ (s : G4State) (zs : List ℝ) (zp : ℝ), zs ≠ [] →
      (∀ z ∈ zs, |z - zp| ≤ (g4PaddingSize s zp).1) →
      (g4RpsfZ s zs zp).sum = 1) ∧
    (∀ (s : GMEState) (zs : List ℝ) (zp : ℝ),
      (gmeRpsfZRaw s zs zp).sum ≠ 0 →
      (gmeRpsfZ s zs zp).sum = 1) := by
  constructor
  · intro s zs zp hne hin
    have hpos := g4RpsfZRaw_sum_pos s zs zp hne hin
    unfold g4RpsfZ
    rw [list_sum_map_div]
    exact div_self hpos.ne'
  · intro s zs zp hsum
    unfold gmeRpsfZ
    rw [list_sum_map_div]
    exact div_self hsum

/-- Witness for C5 at concrete inputs: layer positions `[0, 1]` around
`z0 = 0` (within the `≥ 2.1` axial padding radius) for the sample
`Gaussian4D`, and the singleton `[0]` for the sample moment-expansion state,
whose normalizer evaluates to `5/4`. -/
theorem C5_rpsf_z_sums_to_one_witness :
    (g4RpsfZ sampleG4 [0, 1] 0).sum = 1 ∧
    (gmeRpsfZ sampleGME [0] 0).sum = 1 := by
  constructor
  · refine C5_rpsf_z_sums_to_one.1 sampleG4 [0, 1] 0 (by decide) ?_
    have h21 : (2.1 : ℝ) ≤ (g4PaddingSize sampleG4 0).1 := le_max_right _ _
    intro z hz
    rcases List.mem_cons.mp hz with rfl | hz1
    · exact le_trans (by norm_num : |(0 : ℝ) - 0| ≤ 2.1) h21
    · rcases List.mem_singleton.mp hz1 with rfl
      exact le_trans (by norm_num : |(1 : ℝ) - 0| ≤ 2.1) h21
  · refine C5_rpsf_z_sums_to_one.2 sampleGME [0] 0 ?_
    have hσ : gmeSigma sampleGME 0 0 = 1 := by
      simp [gmeSigma, sampleGME, evalPoly]
    have hkurt : gmeKurt sampleGME 0 0 1 = 1 / 4 := by
      simp [gmeKurt, sampleGME, evalPoly, Real.tanh_zero]
      norm_num
    have hskew : gmeSkew sampleGME 0 0 1 = 0 := by
      simp [gmeSkew]
    have hmom : gmeMoment sampleGME 0 0 1 = 5 / 4 := by
      rw [gmeMoment, hkurt, hskew]
      norm_num
    have hmask : |(0 : ℝ) - 0| ≤ (gmePaddingSize sampleGME 0).1 := by
      have h21 : (2.1 : ℝ) ≤ (gmePaddingSize sampleGME 0).1 := le_max_right _ _
      calc |(0 : ℝ) - 0| = 0 := by norm_num
        _ ≤ 2.1 := by norm_num
        _ ≤ _ := h21
    have : (gmeRpsfZRaw sampleGME [0] 0).sum = 5 / 4 := by
      unfold gmeRpsfZRaw
      rw [hσ]
      simp only [List.map_cons, List.map_nil, List.sum_cons, List.sum_nil]
      rw [if_pos hmask]
      rw [show ((0 : ℝ) - 0) / 1 = 0 from by norm_num] -- argument of the moment
      rw [hmom]
      norm_num [Real.exp_zero]
    rw [this]
    norm_num

/-- C9: the tabulated (`FromArray`) variant's `update` is `pass`: it leaves
the kernel table and every other piece of instance state unchanged and never
fails. -/
theorem C9_from_array_update_noop :
    ∀ (s : FAState) (ps : List ℝ),
      faUpdate s ps = s ∧ (faUpdate s ps).table = s.table ∧
      (faUpdate s ps).tile = s.tile ∧ (faUpdate s ps).support = s.support :=
  fun s ps => ⟨rfl, rfl, rfl, rfl⟩

/-- C10: when the optimized FFT backend is unavailable the module uses the
reference backend and `fftnorm` is the identity; when it is available the
optimized backend is selected and `fftnorm` multiplies elementwise by the
array's total size. -/
theorem C10_fftnorm_backend :
    ∀ arr : List ℝ,
      fftBackendOf false = FFTBackend.numpy ∧
      fftnorm false arr = arr ∧
      fftBackendOf true = FFTBackend.fftw ∧
      fftnorm true arr = arr.map (fun x => x * (arr.length : ℝ)) :=
  fun arr => ⟨rfl, rfl, rfl, rfl⟩

end Peri
